import Mathlib

/-!
# Juba: proximity model and layout of `src/Main.cpp`

A shallow embedding of the parts of `Main.cpp` that decide how a Bluetooth
signal-strength reading becomes a distance, how the window keeps its registry
of discovered devices, and how `updateProximityGraph` lays the devices out.

* `qreal` is an arbitrary linear ordered field `R`; the `<cmath>` functions
  the program calls (`std::pow`, `cos`, `sin`) and the constant `M_PI` are the
  fields of a `CMath R` value handed to every function that uses them.  The
  theorems about numeric values instantiate `R` with the real numbers and
  `CMath` with the real power, cosine, sine and `π`.
* Where the rounding of `double` arithmetic decides a property (the bounds of
  the layout), the layout is given a second time with the result of every
  operation passed through a rounding function (`updateProximityGraphRounded`):
  the identity gives the exact layout back, and `binary64`, on the rationals,
  is round-to-nearest, ties-to-even, to 53 significant bits.
* A `QString` is its sequence of UTF-16 code units; `QString::operator<`, the
  order `QMap` keeps its keys in, is the lexicographic order on code units.
* A `QMap` is its list of entries in iteration order (ascending keys).
* A `DeviceItem*` is represented by the key under which `m_deviceItems` holds
  the item.
-/

namespace Juba

/-! ## Strings, maps and the maths library -/

/-- A `QString`, as its sequence of UTF-16 code units. -/
abbrev QString := List Nat

/-- The `QString` holding the given text (code units of its characters; for
text of the Basic Multilingual Plane, one code unit for each character). -/
def qs (s : String) : QString := s.toList.map Char.toNat

/-- The functions of `<cmath>` used by `Main.cpp`, and `M_PI`. -/
structure CMath (R : Type) where
  pow : R → R → R
  cos : R → R
  sin : R → R
  M_PI : R

/-- A `QMap<QString, V>`: its entries in iteration order. -/
abbrev QMap (V : Type) := List (QString × V)

/-- The keys of a map, in iteration order (`QMap::keys`). -/
def QMap.keys {V : Type} (m : QMap V) : List QString := m.map Prod.fst

/-- `QMap::contains`. -/
def QMap.contains {V : Type} (m : QMap V) (k : QString) : Bool :=
  m.any (fun e => decide (e.1 = k))

/-- `QMap::value`: the value stored under a key, if any. -/
def QMap.value {V : Type} : QMap V → QString → Option V
  | [], _ => none
  | e :: m, k => if e.1 = k then some e.2 else QMap.value m k

/-- The assignment `m[k] = v`: replaces the value under `k`, or inserts the
entry at the place the key order gives it. -/
def QMap.assign {V : Type} : QMap V → QString → V → QMap V
  | [], k, v => [(k, v)]
  | e :: m, k, v =>
    if k < e.1 then (k, v) :: e :: m
    else if k = e.1 then (k, v) :: m
    else e :: QMap.assign m k v

/-- A call `m[k]->f()` on the object stored under `k`, for a key the map
contains. -/
def QMap.modify {V : Type} (m : QMap V) (k : QString) (f : V → V) : QMap V :=
  m.map (fun e => if e.1 = k then (e.1, f e.2) else e)

/-! ## Distance from signal strength -/

/-- `distanceFromRSSI` (Main.cpp:26-32). -/
def distanceFromRSSI {R : Type} [LinearOrderedField R] (cm : CMath R) (rssi : Int) : R :=
  let txPower : Int := -59
  if rssi = 0 then -1.0
  else
    let ratio : R := (rssi : R) * 1.0 / (txPower : R)
    if ratio < 1.0 then cm.pow ratio 10
    else 0.89976 * cm.pow ratio 7.7095 + 0.111

/-! ## Device items -/

/-- What the program reads of a `QBluetoothDeviceInfo`: `address().toString()`,
`name()` and `rssi()`. -/
structure QBluetoothDeviceInfo where
  address : QString
  name : QString
  rssi : Int
deriving DecidableEq

/-- A `DeviceItem` (Main.cpp:52-76) with the `QGraphicsItem` state the program
sets: visibility, position and z-value. -/
structure DeviceItem (R : Type) where
  m_info : QBluetoothDeviceInfo
  m_distance : R
  m_starred : Bool
  visible : Bool
  pos : R × R
  zValue : R

/-- The constructor `DeviceItem::DeviceItem` (Main.cpp:122-135): member
defaults `m_distance = 1.0`, `m_starred = false`; a new graphics item is
visible, at the origin, with z-value 0. -/
def DeviceItem.new {R : Type} [LinearOrderedField R] (info : QBluetoothDeviceInfo) :
    DeviceItem R :=
  { m_info := info, m_distance := 1.0, m_starred := false,
    visible := true, pos := (0, 0), zValue := 0 }

/-- `DeviceItem::address`. -/
def DeviceItem.address {R : Type} (item : DeviceItem R) : QString := item.m_info.address

/-- `DeviceItem::name`. -/
def DeviceItem.name {R : Type} (item : DeviceItem R) : QString := item.m_info.name

/-- `DeviceItem::distance`. -/
def DeviceItem.distance {R : Type} (item : DeviceItem R) : R := item.m_distance

/-- `DeviceItem::setDistanceFromRSSI` (Main.cpp:137-141). -/
def DeviceItem.setDistanceFromRSSI {R : Type} [LinearOrderedField R] (cm : CMath R)
    (item : DeviceItem R) (rssi : Int) : DeviceItem R :=
  let dist := distanceFromRSSI cm rssi
  { item with m_distance := if dist > 0 then dist else 1.0 }

/-- `DeviceItem::setStarred` (Main.cpp:143-147). -/
def DeviceItem.setStarred {R : Type} (item : DeviceItem R) (starred : Bool) : DeviceItem R :=
  { item with m_starred := starred }

/-- `QGraphicsItem::setVisible`. -/
def DeviceItem.setVisible {R : Type} (item : DeviceItem R) (v : Bool) : DeviceItem R :=
  { item with visible := v }

/-- `QGraphicsItem::hide`. -/
def DeviceItem.hide {R : Type} (item : DeviceItem R) : DeviceItem R := item.setVisible false

/-- `QGraphicsItem::setPos`. -/
def DeviceItem.setPos {R : Type} (item : DeviceItem R) (x y : R) : DeviceItem R :=
  { item with pos := (x, y) }

/-- `QGraphicsItem::setZValue`. -/
def DeviceItem.setZValue {R : Type} (item : DeviceItem R) (z : R) : DeviceItem R :=
  { item with zValue := z }

/-! ## The window's registry -/

/-- The registry members of `MainWindow` (Main.cpp:107-113). -/
structure MainWindow (R : Type) where
  m_deviceItems : QMap (DeviceItem R)
  m_devicesInfo : QMap QBluetoothDeviceInfo
  m_hiddenDevices : Finset QString
  m_starredDevices : Finset QString
  m_focusedDevice : QString

/-- The registry of a window just constructed: everything empty. -/
def MainWindow.init {R : Type} : MainWindow R :=
  { m_deviceItems := [], m_devicesInfo := [], m_hiddenDevices := ∅,
    m_starredDevices := ∅, m_focusedDevice := [] }

/-- `MainWindow::onAdapterSelected` (Main.cpp:295-338): both branches clear the
registry. -/
def onAdapterSelected {R : Type} (_s : MainWindow R) (_index : Int) : MainWindow R :=
  MainWindow.init

/-- The body of the layout loop (Main.cpp:405-415) for the item at index `i`
of `n` visible items. -/
def placeItem {R : Type} [LinearOrderedField R] (cm : CMath R) (i n : Nat)
    (item : DeviceItem R) : DeviceItem R :=
  let radius : Int := 250
  let centerX : Int := 400
  let centerY : Int := 300
  let dist : R := item.distance
  let dist : R := if dist ≤ 0 ∨ dist > 10.0 then 10.0 else dist
  let distRatio : R := (10.0 - dist) / 10.0
  let angle : R := 2 * cm.M_PI * (i : R) / (n : R)
  let x : R := (centerX : R) + (radius : R) * distRatio * cm.cos angle
  let y : R := (centerY : R) + (radius : R) * distRatio * cm.sin angle
  (item.setPos x y).setZValue distRatio

/-- The layout loop `for (int i = 0; i < n; ++i)` (Main.cpp:404-416), from
index `i` on, over the rest of `visibleItems`. -/
def arrange {R : Type} [LinearOrderedField R] (cm : CMath R) (n : Nat) :
    Nat → List QString → QMap (DeviceItem R) → QMap (DeviceItem R)
  | _, [], items => items
  | i, k :: ks, items => arrange cm n (i + 1) ks (QMap.modify items k (placeItem cm i n))

/-- The list `visibleItems` that `updateProximityGraph` builds
(Main.cpp:387-393): the items that are not hidden, in the map's iteration
order. -/
def visibleItems {R : Type} (s : MainWindow R) : List QString :=
  (s.m_deviceItems.filter (fun e => decide (e.1 ∉ s.m_hiddenDevices))).map Prod.fst

/-- `MainWindow::updateProximityGraph` (Main.cpp:375-417). -/
def updateProximityGraph {R : Type} [LinearOrderedField R] (cm : CMath R)
    (s : MainWindow R) : MainWindow R :=
  if s.m_focusedDevice ≠ [] then
    { s with m_deviceItems := s.m_deviceItems.map (fun e =>
        let item := e.2.setVisible (decide (e.1 = s.m_focusedDevice))
        if e.1 = s.m_focusedDevice then (e.1, item.setPos 400 300) else (e.1, item)) }
  else
    let shown : QMap (DeviceItem R) := s.m_deviceItems.map (fun e =>
      (e.1, e.2.setVisible (decide (e.1 ∉ s.m_hiddenDevices))))
    let visible := visibleItems s
    if visible = [] then { s with m_deviceItems := shown }
    else { s with m_deviceItems := arrange cm visible.length 0 visible shown }

/-- `MainWindow::onDeviceDiscovered` (Main.cpp:340-360). -/
def onDeviceDiscovered {R : Type} [LinearOrderedField R] (cm : CMath R)
    (s : MainWindow R) (device : QBluetoothDeviceInfo) : MainWindow R :=
  let addr := device.address
  if s.m_devicesInfo.contains addr then s
  else
    let item : DeviceItem R := DeviceItem.new device
    let item := item.setDistanceFromRSSI cm device.rssi
    let item := item.setStarred (decide (addr ∈ s.m_starredDevices))
    updateProximityGraph cm
      { s with m_devicesInfo := s.m_devicesInfo.assign addr device,
               m_deviceItems := s.m_deviceItems.assign addr item }

/-- `MainWindow::onHideDevice` (Main.cpp:431-437). -/
def onHideDevice {R : Type} (s : MainWindow R) (address : QString) : MainWindow R :=
  let hidden := insert address s.m_hiddenDevices
  if s.m_deviceItems.contains address then
    { s with m_hiddenDevices := hidden,
             m_deviceItems := s.m_deviceItems.modify address DeviceItem.hide }
  else { s with m_hiddenDevices := hidden }

/-- `MainWindow::onStarDevice` (Main.cpp:439-451). -/
def onStarDevice {R : Type} [LinearOrderedField R] (cm : CMath R)
    (s : MainWindow R) (address : QString) : MainWindow R :=
  if address ∈ s.m_starredDevices then
    updateProximityGraph cm
      { s with m_starredDevices := s.m_starredDevices.erase address,
               m_deviceItems :=
                 if s.m_deviceItems.contains address then
                   s.m_deviceItems.modify address (fun item => item.setStarred false)
                 else s.m_deviceItems }
  else
    updateProximityGraph cm
      { s with m_starredDevices := insert address s.m_starredDevices,
               m_deviceItems :=
                 if s.m_deviceItems.contains address then
                   s.m_deviceItems.modify address (fun item => item.setStarred true)
                 else s.m_deviceItems }

/-- `MainWindow::onFocusDevice` (Main.cpp:453-461). -/
def onFocusDevice {R : Type} [LinearOrderedField R] (cm : CMath R)
    (s : MainWindow R) (address : QString) : MainWindow R :=
  if s.m_focusedDevice = address then
    updateProximityGraph cm { s with m_focusedDevice := [] }
  else
    updateProximityGraph cm { s with m_focusedDevice := address }

/-! ## Sequences of events -/

/-- The signals that reach the registry between two adapter selections: a
discovered device and the three commands of the details dialog. -/
inductive Command where
  | discovered (device : QBluetoothDeviceInfo)
  | hide (address : QString)
  | star (address : QString)
  | focus (address : QString)
deriving DecidableEq

/-- The slot a signal is connected to (Main.cpp:323-324, 423-425). -/
def handle {R : Type} [LinearOrderedField R] (cm : CMath R) (s : MainWindow R) :
    Command → MainWindow R
  | .discovered device => onDeviceDiscovered cm s device
  | .hide address => onHideDevice s address
  | .star address => onStarDevice cm s address
  | .focus address => onFocusDevice cm s address

/-- The event loop handling a sequence of signals one after the other. -/
def run {R : Type} [LinearOrderedField R] (cm : CMath R) (s : MainWindow R)
    (cmds : List Command) : MainWindow R :=
  cmds.foldl (handle cm) s

/-- The devices the scene shows: the keys of the items whose `isVisible()` is
true, in the map's iteration order. -/
def visibleDevices {R : Type} (s : MainWindow R) : List QString :=
  (s.m_deviceItems.filter (fun e => e.2.visible)).map Prod.fst

/-- The addresses found in the discovery events of a sequence of signals. -/
def discoveredAddresses : List Command → List QString
  | [] => []
  | .discovered device :: cmds => device.address :: discoveredAddresses cmds
  | _ :: cmds => discoveredAddresses cmds

/-- The invariant of a `QMap`: keys in strictly ascending order. -/
def QMap.Ordered {V : Type} (m : QMap V) : Prop := (QMap.keys m).Sorted (· < ·)

instance {V : Type} (m : QMap V) : Decidable (QMap.Ordered m) := by
  unfold QMap.Ordered; infer_instance

/-- The registry as the handlers keep it: `m_deviceItems` is a `QMap` (keys
ascending) and `m_devicesInfo` holds the same keys. -/
def MainWindow.WellFormed {R : Type} (s : MainWindow R) : Prop :=
  QMap.Ordered s.m_deviceItems ∧ QMap.keys s.m_devicesInfo = QMap.keys s.m_deviceItems

instance {R : Type} (s : MainWindow R) : Decidable s.WellFormed := by
  unfold MainWindow.WellFormed; infer_instance

/-- The scene shows the overview layout of the registry: the item at each
index `i` of `visibleItems` has the position and z-value that the layout loop
gives index `i` of `n = visibleItems.size()`. -/
def LaidOut {R : Type} [LinearOrderedField R] (cm : CMath R) (s : MainWindow R) : Prop :=
  ∀ (i : Nat) (hi : i < (visibleItems s).length),
    ∃ item, QMap.value s.m_deviceItems (visibleItems s)[i] = some item ∧
      placeItem cm i (visibleItems s).length item = item


/-! ## Rounded arithmetic -/

/-- The integer nearest to `t`, the even one of the two on a tie. -/
def roundHalfEven (t : ℚ) : Int :=
  let f : Int := ⌊t⌋
  let r : ℚ := t - f
  if r < 1 / 2 then f else if 1 / 2 < r then f + 1 else if f % 2 = 0 then f else f + 1

/-- The `double` (IEEE 754 binary64) that an operation with the exact result
`q` returns: `q` rounded to 53 significant bits, to nearest, ties to even
(`Int.log 2 |q|` is the binary exponent of `q`). The exponent range is not
bounded: the values of the layout are far from overflow and underflow. -/
def binary64 (q : ℚ) : ℚ :=
  if q = 0 then 0
  else
    let ulp : ℚ := 2 ^ (Int.log 2 |q| - 52)
    (roundHalfEven (q / ulp) : ℚ) * ulp

/-- The body of the layout loop (Main.cpp:405-415) with the result of every
`qreal` operation rounded by `fl`: the identity gives `placeItem`, `binary64`
the arithmetic of the compiled program. -/
def placeItemRounded {R : Type} [LinearOrderedField R] (fl : R → R) (cm : CMath R)
    (i n : Nat) (item : DeviceItem R) : DeviceItem R :=
  let radius : Int := 250
  let centerX : Int := 400
  let centerY : Int := 300
  let dist : R := item.distance
  let dist : R := if dist ≤ 0 ∨ dist > 10.0 then 10.0 else dist
  let distRatio : R := fl (fl (10.0 - dist) / 10.0)
  let angle : R := fl (fl (fl (2 * cm.M_PI) * (i : R)) / (n : R))
  let x : R := fl ((centerX : R) + fl (fl ((radius : R) * distRatio) * cm.cos angle))
  let y : R := fl ((centerY : R) + fl (fl ((radius : R) * distRatio) * cm.sin angle))
  (item.setPos x y).setZValue distRatio

/-- The layout loop (Main.cpp:404-416) with rounded arithmetic. -/
def arrangeRounded {R : Type} [LinearOrderedField R] (fl : R → R) (cm : CMath R) (n : Nat) :
    Nat → List QString → QMap (DeviceItem R) → QMap (DeviceItem R)
  | _, [], items => items
  | i, k :: ks, items =>
    arrangeRounded fl cm n (i + 1) ks (QMap.modify items k (placeItemRounded fl cm i n))

/-- `MainWindow::updateProximityGraph` (Main.cpp:375-417) with rounded
arithmetic. -/
def updateProximityGraphRounded {R : Type} [LinearOrderedField R] (fl : R → R) (cm : CMath R)
    (s : MainWindow R) : MainWindow R :=
  if s.m_focusedDevice ≠ [] then
    { s with m_deviceItems := s.m_deviceItems.map (fun e =>
        let item := e.2.setVisible (decide (e.1 = s.m_focusedDevice))
        if e.1 = s.m_focusedDevice then (e.1, item.setPos 400 300) else (e.1, item)) }
  else
    let shown : QMap (DeviceItem R) := s.m_deviceItems.map (fun e =>
      (e.1, e.2.setVisible (decide (e.1 ∉ s.m_hiddenDevices))))
    let visible := visibleItems s
    if visible = [] then { s with m_deviceItems := shown }
    else { s with m_deviceItems := arrangeRounded fl cm visible.length 0 visible shown }

/-! ## Facts about maps -/

theorem QMap.contains_iff {V : Type} (m : QMap V) (k : QString) :
    QMap.contains m k = true ↔ k ∈ QMap.keys m := by
  induction m with
  | nil => simp [QMap.contains, QMap.keys]
  | cons e m ih =>
    simp only [QMap.contains, QMap.keys, List.any_cons, List.map_cons, List.mem_cons,
      Bool.or_eq_true, decide_eq_true_eq] at ih ⊢
    rw [ih]
    constructor
    · rintro (h | h)
      · exact Or.inl h.symm
      · exact Or.inr h
    · rintro (h | h)
      · exact Or.inl h.symm
      · exact Or.inr h

theorem QMap.contains_eq_false_iff {V : Type} (m : QMap V) (k : QString) :
    QMap.contains m k = false ↔ k ∉ QMap.keys m := by
  rw [← QMap.contains_iff]; simp

theorem QMap.keys_modify {V : Type} (m : QMap V) (k : QString) (f : V → V) :
    QMap.keys (QMap.modify m k f) = QMap.keys m := by
  induction m with
  | nil => rfl
  | cons e m ih =>
    simp only [QMap.keys, QMap.modify, List.map_cons] at ih ⊢
    rw [ih]
    by_cases h : e.1 = k <;> simp [h]

theorem QMap.value_modify {V : Type} (m : QMap V) (k k' : QString) (f : V → V) :
    QMap.value (QMap.modify m k f) k' =
      if k' = k then (QMap.value m k').map f else QMap.value m k' := by
  induction m with
  | nil => simp [QMap.modify, QMap.value]
  | cons e m ih =>
    simp only [QMap.modify, List.map_cons] at ih ⊢
    by_cases h : e.1 = k
    · by_cases h' : e.1 = k'
      · have : k' = k := h' ▸ h
        simp [QMap.value, h, h', this]
      · simp only [h, if_true, QMap.value]
        have hk : ¬ k = k' := fun hh => h' (h.trans hh)
        simp only [hk, if_false]
        rw [ih]
    · by_cases h' : e.1 = k'
      · have hk : ¬ k' = k := fun hh => h (h'.trans hh)
        simp [QMap.value, h, h', hk]
      · simp only [h, if_false, QMap.value, h']
        exact ih

theorem QMap.value_assign {V : Type} (m : QMap V) (k k' : QString) (v : V) :
    QMap.value (QMap.assign m k v) k' = if k' = k then some v else QMap.value m k' := by
  induction m with
  | nil => simp [QMap.assign, QMap.value, eq_comm]
  | cons e m ih =>
    simp only [QMap.assign]
    split_ifs with h1 h2 h3 h3 h3
    all_goals simp_all [QMap.value, eq_comm]

theorem QMap.mem_keys_assign {V : Type} (m : QMap V) (k k' : QString) (v : V) :
    k' ∈ QMap.keys (QMap.assign m k v) ↔ k' = k ∨ k' ∈ QMap.keys m := by
  induction m with
  | nil => simp [QMap.assign, QMap.keys]
  | cons e m ih =>
    simp only [QMap.keys, List.map_cons, List.mem_cons] at ih ⊢
    simp only [QMap.assign]
    split_ifs with h1 h2
    · simp
    · simp [h2]
    · simp only [List.map_cons, List.mem_cons, ih]; tauto

theorem QMap.ordered_assign {V : Type} (m : QMap V) (k : QString) (v : V)
    (hm : QMap.Ordered m) : QMap.Ordered (QMap.assign m k v) := by
  induction m with
  | nil => simp [QMap.assign, QMap.Ordered, QMap.keys]
  | cons e m ih =>
    have hm' : QMap.Ordered m := by
      simp only [QMap.Ordered, QMap.keys, List.map_cons, List.sorted_cons] at hm ⊢
      exact hm.2
    have hlt : ∀ b ∈ QMap.keys m, e.1 < b := by
      simp only [QMap.Ordered, QMap.keys, List.map_cons, List.sorted_cons] at hm ⊢
      exact hm.1
    simp only [QMap.assign]
    split_ifs with h1 h2
    · simp only [QMap.Ordered, QMap.keys, List.map_cons, List.sorted_cons, List.mem_cons]
      refine ⟨?_, ?_, hm'⟩
      · rintro b (rfl | hb)
        · exact h1
        · exact lt_trans h1 (hlt b hb)
      · exact hlt
    · simp only [QMap.Ordered, QMap.keys, List.map_cons, List.sorted_cons]
      exact ⟨fun b hb => h2 ▸ hlt b hb, hm'⟩
    · simp only [QMap.Ordered, List.sorted_cons]
      have hke : e.1 < k := lt_of_le_of_ne (not_lt.1 h1) (Ne.symm h2)
      have : QMap.keys (e :: QMap.assign m k v) = e.1 :: QMap.keys (QMap.assign m k v) := rfl
      rw [this, List.sorted_cons]
      refine ⟨?_, ih hm'⟩
      intro b hb
      rcases (QMap.mem_keys_assign m k b v).1 hb with rfl | hb
      · exact hke
      · exact hlt b hb

theorem QMap.value_isSome_iff {V : Type} (m : QMap V) (k : QString) :
    (QMap.value m k).isSome = true ↔ k ∈ QMap.keys m := by
  induction m with
  | nil => simp [QMap.value, QMap.keys]
  | cons e m ih =>
    simp only [QMap.keys, List.map_cons, List.mem_cons] at ih ⊢
    simp only [QMap.value]
    split_ifs with h
    · simp [h]
    · rw [ih]; constructor
      · exact Or.inr
      · rintro (h' | h')
        · exact absurd h'.symm h
        · exact h'

theorem QMap.value_of_mem_keys {V : Type} (m : QMap V) (k : QString)
    (h : k ∈ QMap.keys m) : ∃ v, QMap.value m k = some v :=
  Option.isSome_iff_exists.1 ((QMap.value_isSome_iff m k).2 h)

theorem QMap.mem_keys_of_value {V : Type} (m : QMap V) (k : QString) (v : V)
    (h : QMap.value m k = some v) : k ∈ QMap.keys m :=
  (QMap.value_isSome_iff m k).1 (by simp [h])


/-! ## What the layout keeps and what it sets -/

theorem QMap.map_modify {V β : Type} (m : QMap V) (k : QString) (f : V → V) (g : V → β)
    (hg : ∀ v, g (f v) = g v) :
    (QMap.modify m k f).map (fun e => (e.1, g e.2)) = m.map (fun e => (e.1, g e.2)) := by
  induction m with
  | nil => rfl
  | cons e m ih =>
    simp only [QMap.modify, List.map_cons] at ih ⊢
    rw [ih]
    by_cases h : e.1 = k <;> simp [h, hg]

theorem map_arrange {R β : Type} [LinearOrderedField R] (cm : CMath R) (n : Nat)
    (g : DeviceItem R → β) (hg : ∀ i item, g (placeItem cm i n item) = g item)
    (ks : List QString) (i : Nat) (items : QMap (DeviceItem R)) :
    (arrange cm n i ks items).map (fun e => (e.1, g e.2)) =
      items.map (fun e => (e.1, g e.2)) := by
  induction ks generalizing i items with
  | nil => rfl
  | cons k ks ih =>
    simp only [arrange]
    rw [ih, QMap.map_modify _ _ _ _ (hg i)]

theorem keys_arrange {R : Type} [LinearOrderedField R] (cm : CMath R) (n : Nat)
    (ks : List QString) (i : Nat) (items : QMap (DeviceItem R)) :
    QMap.keys (arrange cm n i ks items) = QMap.keys items := by
  induction ks generalizing i items with
  | nil => rfl
  | cons k ks ih =>
    simp only [arrange]
    rw [ih, QMap.keys_modify]

theorem value_arrange_of_not_mem {R : Type} [LinearOrderedField R] (cm : CMath R) (n : Nat)
    (ks : List QString) (i : Nat) (items : QMap (DeviceItem R)) (k : QString)
    (hk : k ∉ ks) : QMap.value (arrange cm n i ks items) k = QMap.value items k := by
  induction ks generalizing i items with
  | nil => rfl
  | cons k0 ks ih =>
    simp only [List.mem_cons, not_or] at hk
    simp only [arrange]
    rw [ih _ _ hk.2, QMap.value_modify, if_neg hk.1]

/-- The loop gives the item at index `j` of the visible list the placement of
index `i + j`. -/
theorem value_arrange_get {R : Type} [LinearOrderedField R] (cm : CMath R) (n : Nat)
    (ks : List QString) (hks : ks.Nodup) (i : Nat) (items : QMap (DeviceItem R))
    (j : Nat) (hj : j < ks.length) :
    QMap.value (arrange cm n i ks items) ks[j] =
      (QMap.value items ks[j]).map (placeItem cm (i + j) n) := by
  induction ks generalizing i items j with
  | nil => simp at hj
  | cons k0 ks ih =>
    rw [List.nodup_cons] at hks
    simp only [arrange]
    cases j with
    | zero =>
      simp only [List.getElem_cons_zero, Nat.add_zero]
      rw [value_arrange_of_not_mem _ _ _ _ _ _ hks.1, QMap.value_modify, if_pos rfl]
    | succ j =>
      have hj2 : j < ks.length := by simpa using hj
      have hne : ks[j] ≠ k0 := fun h => hks.1 (h ▸ List.getElem_mem hj2)
      simp only [List.getElem_cons_succ]
      rw [ih hks.2 (i + 1) _ j hj2, QMap.value_modify, if_neg hne]
      have : i + 1 + j = i + (j + 1) := by omega
      rw [this]

section fields
variable {R : Type} [LinearOrderedField R] (cm : CMath R) (s : MainWindow R)

theorem update_of_focus (h : s.m_focusedDevice ≠ []) :
    updateProximityGraph cm s =
      { s with m_deviceItems := s.m_deviceItems.map (fun e =>
          if e.1 = s.m_focusedDevice then
            (e.1, (e.2.setVisible (decide (e.1 = s.m_focusedDevice))).setPos 400 300)
          else (e.1, e.2.setVisible (decide (e.1 = s.m_focusedDevice)))) } := by
  simp only [updateProximityGraph, if_pos h]

theorem update_of_none (h : s.m_focusedDevice = []) (hv : visibleItems s = []) :
    updateProximityGraph cm s =
      { s with m_deviceItems := s.m_deviceItems.map (fun e =>
          (e.1, e.2.setVisible (decide (e.1 ∉ s.m_hiddenDevices)))) } := by
  simp only [updateProximityGraph, h, hv, ne_eq, not_true_eq_false, if_false, if_true]

theorem update_of_some (h : s.m_focusedDevice = []) (hv : visibleItems s ≠ []) :
    updateProximityGraph cm s =
      { s with m_deviceItems := arrange cm (visibleItems s).length 0 (visibleItems s)
                                  (s.m_deviceItems.map (fun e =>
                                    (e.1, e.2.setVisible (decide (e.1 ∉ s.m_hiddenDevices))))) } := by
  simp only [updateProximityGraph, h, hv, ne_eq, not_true_eq_false, if_false]

theorem update_devicesInfo : (updateProximityGraph cm s).m_devicesInfo = s.m_devicesInfo := by
  by_cases h : s.m_focusedDevice = []
  · by_cases hv : visibleItems s = []
    · rw [update_of_none cm s h hv]
    · rw [update_of_some cm s h hv]
  · rw [update_of_focus cm s h]

theorem update_hidden : (updateProximityGraph cm s).m_hiddenDevices = s.m_hiddenDevices := by
  by_cases h : s.m_focusedDevice = []
  · by_cases hv : visibleItems s = []
    · rw [update_of_none cm s h hv]
    · rw [update_of_some cm s h hv]
  · rw [update_of_focus cm s h]

theorem update_starred : (updateProximityGraph cm s).m_starredDevices = s.m_starredDevices := by
  by_cases h : s.m_focusedDevice = []
  · by_cases hv : visibleItems s = []
    · rw [update_of_none cm s h hv]
    · rw [update_of_some cm s h hv]
  · rw [update_of_focus cm s h]

theorem update_focused : (updateProximityGraph cm s).m_focusedDevice = s.m_focusedDevice := by
  by_cases h : s.m_focusedDevice = []
  · by_cases hv : visibleItems s = []
    · rw [update_of_none cm s h hv]
    · rw [update_of_some cm s h hv]
  · rw [update_of_focus cm s h]

/-- The layout changes no item's device info, distance or star. -/
theorem update_map_core :
    (updateProximityGraph cm s).m_deviceItems.map
        (fun e => (e.1, (e.2.m_info, e.2.m_distance, e.2.m_starred))) =
      s.m_deviceItems.map (fun e => (e.1, (e.2.m_info, e.2.m_distance, e.2.m_starred))) := by
  by_cases h : s.m_focusedDevice = []
  · by_cases hv : visibleItems s = []
    · rw [update_of_none cm s h hv]
      simp only [List.map_map]
      apply List.map_congr_left
      intro e _
      simp [DeviceItem.setVisible]
    · rw [update_of_some cm s h hv]
      show (arrange cm _ 0 _ _).map (fun e => (e.1, e.2.m_info, e.2.m_distance, e.2.m_starred)) = _
      rw [map_arrange cm (visibleItems s).length
        (fun it : DeviceItem R => (it.m_info, it.m_distance, it.m_starred))
        (fun i item => rfl)]
      simp only [List.map_map]
      apply List.map_congr_left
      intro e _
      simp [DeviceItem.setVisible]
  · rw [update_of_focus cm s h]
    simp only [List.map_map]
    apply List.map_congr_left
    intro e _
    by_cases h : e.1 = s.m_focusedDevice <;>
      simp [h, DeviceItem.setVisible, DeviceItem.setPos]

/-- The visibility the layout gives each item: with a focus, only the focused
key; without, the keys that are not hidden. -/
theorem update_map_visible :
    (updateProximityGraph cm s).m_deviceItems.map (fun e => (e.1, e.2.visible)) =
      s.m_deviceItems.map (fun e => (e.1,
        if s.m_focusedDevice ≠ [] then decide (e.1 = s.m_focusedDevice)
        else decide (e.1 ∉ s.m_hiddenDevices))) := by
  by_cases h : s.m_focusedDevice = []
  · by_cases hv : visibleItems s = []
    · rw [update_of_none cm s h hv]
      simp only [List.map_map]
      apply List.map_congr_left
      intro e _
      simp [DeviceItem.setVisible, h]
    · rw [update_of_some cm s h hv]
      show (arrange cm _ 0 _ _).map (fun e => (e.1, e.2.visible)) = _
      rw [map_arrange cm (visibleItems s).length (fun it : DeviceItem R => it.visible)
        (fun i item => rfl)]
      simp only [List.map_map]
      apply List.map_congr_left
      intro e _
      simp [DeviceItem.setVisible, h]
  · rw [update_of_focus cm s h]
    simp only [List.map_map]
    apply List.map_congr_left
    intro e _
    by_cases h2 : e.1 = s.m_focusedDevice <;>
      simp [h, h2, DeviceItem.setVisible, DeviceItem.setPos]

theorem keys_update :
    QMap.keys (updateProximityGraph cm s).m_deviceItems = QMap.keys s.m_deviceItems := by
  have h := congrArg (List.map Prod.fst) (update_map_visible cm s)
  simpa [QMap.keys, List.map_map, Function.comp_def] using h

end fields

theorem visibleDevices_eq {R : Type} (s : MainWindow R) :
    visibleDevices s =
      ((s.m_deviceItems.map (fun e => (e.1, e.2.visible))).filter (fun p => p.2)).map
        Prod.fst := by
  simp [visibleDevices, List.filter_map, List.map_map, Function.comp_def]

/-- The devices shown after a layout. -/
theorem visibleDevices_update {R : Type} [LinearOrderedField R] (cm : CMath R)
    (s : MainWindow R) :
    visibleDevices (updateProximityGraph cm s) =
      if s.m_focusedDevice ≠ [] then
        (QMap.keys s.m_deviceItems).filter (fun k => decide (k = s.m_focusedDevice))
      else visibleItems s := by
  rw [visibleDevices_eq, update_map_visible]
  split_ifs with h
  · simp [QMap.keys, List.filter_map, List.map_map, Function.comp_def, h]
  · simp [visibleItems, List.filter_map, List.map_map, Function.comp_def, h]


/-! ## The handlers, field by field -/

theorem mem_visibleItems {R : Type} (s : MainWindow R) (a : QString) :
    a ∈ visibleItems s ↔ a ∈ QMap.keys s.m_deviceItems ∧ a ∉ s.m_hiddenDevices := by
  simp only [visibleItems, QMap.keys, List.mem_map, List.mem_filter, decide_eq_true_eq]
  constructor
  · rintro ⟨e, ⟨he, hh⟩, rfl⟩
    exact ⟨⟨e, he, rfl⟩, hh⟩
  · rintro ⟨⟨e, he, rfl⟩, hh⟩
    exact ⟨e, ⟨he, hh⟩, rfl⟩

theorem mem_visibleDevices {R : Type} (s : MainWindow R) (a : QString) :
    a ∈ visibleDevices s ↔ ∃ item, (a, item) ∈ s.m_deviceItems ∧ item.visible = true := by
  simp only [visibleDevices, List.mem_map, List.mem_filter]
  constructor
  · rintro ⟨e, ⟨he, hv⟩, rfl⟩
    exact ⟨e.2, he, hv⟩
  · rintro ⟨item, he, hv⟩
    exact ⟨(a, item), ⟨he, hv⟩, rfl⟩

theorem visibleDevices_subset_keys {R : Type} (s : MainWindow R) (a : QString)
    (h : a ∈ visibleDevices s) : a ∈ QMap.keys s.m_deviceItems := by
  obtain ⟨item, he, _⟩ := (mem_visibleDevices s a).1 h
  exact List.mem_map.2 ⟨(a, item), he, rfl⟩

theorem hide_hidden {R : Type} (s : MainWindow R) (a : QString) :
    (onHideDevice s a).m_hiddenDevices = insert a s.m_hiddenDevices := by
  unfold onHideDevice; split_ifs <;> rfl

theorem hide_focused {R : Type} (s : MainWindow R) (a : QString) :
    (onHideDevice s a).m_focusedDevice = s.m_focusedDevice := by
  unfold onHideDevice; split_ifs <;> rfl

theorem hide_starred {R : Type} (s : MainWindow R) (a : QString) :
    (onHideDevice s a).m_starredDevices = s.m_starredDevices := by
  unfold onHideDevice; split_ifs <;> rfl

theorem hide_devicesInfo {R : Type} (s : MainWindow R) (a : QString) :
    (onHideDevice s a).m_devicesInfo = s.m_devicesInfo := by
  unfold onHideDevice; split_ifs <;> rfl

theorem hide_keys {R : Type} (s : MainWindow R) (a : QString) :
    QMap.keys (onHideDevice s a).m_deviceItems = QMap.keys s.m_deviceItems := by
  unfold onHideDevice; split_ifs
  · exact QMap.keys_modify _ _ _
  · rfl

/-- Hiding shows nothing new, and never the hidden address. -/
theorem mem_visibleDevices_hide {R : Type} (s : MainWindow R) (a b : QString)
    (h : b ∈ visibleDevices (onHideDevice s a)) : b ∈ visibleDevices s ∧ b ≠ a := by
  rw [mem_visibleDevices] at h
  obtain ⟨item, he, hv⟩ := h
  unfold onHideDevice at he
  split_ifs at he with hc
  · simp only [QMap.modify, List.mem_map] at he
    obtain ⟨e, hmem, heq⟩ := he
    by_cases hk : e.1 = a
    · rw [if_pos hk] at heq
      have : item = e.2.hide := (Prod.mk.inj heq).2.symm
      rw [this] at hv
      simp [DeviceItem.hide, DeviceItem.setVisible] at hv
    · rw [if_neg hk] at heq
      rw [heq] at hmem hk
      exact ⟨(mem_visibleDevices s _).2 ⟨item, hmem, hv⟩, hk⟩
  · refine ⟨(mem_visibleDevices s b).2 ⟨item, he, hv⟩, ?_⟩
    rintro rfl
    have : b ∈ QMap.keys s.m_deviceItems := List.mem_map.2 ⟨(b, item), he, rfl⟩
    rw [← QMap.contains_iff] at this
    exact hc this

section handlers
variable {R : Type} [LinearOrderedField R] (cm : CMath R) (s : MainWindow R)

theorem star_devicesInfo (a : QString) :
    (onStarDevice cm s a).m_devicesInfo = s.m_devicesInfo := by
  unfold onStarDevice; split_ifs <;> rw [update_devicesInfo]

theorem star_keys (a : QString) :
    QMap.keys (onStarDevice cm s a).m_deviceItems = QMap.keys s.m_deviceItems := by
  unfold onStarDevice
  split_ifs <;> rw [keys_update] <;>
    first | rfl | (dsimp only; rw [QMap.keys_modify])

theorem focus_hidden (a : QString) :
    (onFocusDevice cm s a).m_hiddenDevices = s.m_hiddenDevices := by
  unfold onFocusDevice; split_ifs <;> rw [update_hidden]

theorem focus_devicesInfo (a : QString) :
    (onFocusDevice cm s a).m_devicesInfo = s.m_devicesInfo := by
  unfold onFocusDevice; split_ifs <;> rw [update_devicesInfo]

theorem focus_focused (a : QString) :
    (onFocusDevice cm s a).m_focusedDevice = if s.m_focusedDevice = a then [] else a := by
  unfold onFocusDevice; split_ifs <;> rw [update_focused]

theorem focus_keys (a : QString) :
    QMap.keys (onFocusDevice cm s a).m_deviceItems = QMap.keys s.m_deviceItems := by
  unfold onFocusDevice; split_ifs <;> rw [keys_update]

/-- A device whose address the registry knows is ignored. -/
theorem discovered_of_known (d : QBluetoothDeviceInfo)
    (h : QMap.contains s.m_devicesInfo d.address = true) : onDeviceDiscovered cm s d = s := by
  unfold onDeviceDiscovered
  simp only [h, if_true]

/-- A device whose address is new gets an item, and the layout runs. -/
theorem discovered_of_new (d : QBluetoothDeviceInfo)
    (h : QMap.contains s.m_devicesInfo d.address = false) :
    onDeviceDiscovered cm s d =
      updateProximityGraph cm
        { s with m_devicesInfo := s.m_devicesInfo.assign d.address d,
                 m_deviceItems := s.m_deviceItems.assign d.address
                   (((DeviceItem.new d).setDistanceFromRSSI cm d.rssi).setStarred
                     (decide (d.address ∈ s.m_starredDevices))) } := by
  unfold onDeviceDiscovered
  simp only [h, Bool.false_eq_true, if_false]

theorem discovered_hidden (d : QBluetoothDeviceInfo) :
    (onDeviceDiscovered cm s d).m_hiddenDevices = s.m_hiddenDevices := by
  rcases Bool.eq_false_or_eq_true (QMap.contains s.m_devicesInfo d.address) with h | h
  · rw [discovered_of_known cm s d h]
  · rw [discovered_of_new cm s d h, update_hidden]

theorem discovered_starred (d : QBluetoothDeviceInfo) :
    (onDeviceDiscovered cm s d).m_starredDevices = s.m_starredDevices := by
  rcases Bool.eq_false_or_eq_true (QMap.contains s.m_devicesInfo d.address) with h | h
  · rw [discovered_of_known cm s d h]
  · rw [discovered_of_new cm s d h, update_starred]

theorem discovered_focused (d : QBluetoothDeviceInfo) :
    (onDeviceDiscovered cm s d).m_focusedDevice = s.m_focusedDevice := by
  rcases Bool.eq_false_or_eq_true (QMap.contains s.m_devicesInfo d.address) with h | h
  · rw [discovered_of_known cm s d h]
  · rw [discovered_of_new cm s d h, update_focused]

/-- After a layout, a hidden address is shown only if it is the focus. -/
theorem focused_of_visible_update (a : QString) (hh : a ∈ s.m_hiddenDevices)
    (hv : a ∈ visibleDevices (updateProximityGraph cm s)) : s.m_focusedDevice = a := by
  rw [visibleDevices_update] at hv
  split_ifs at hv with hf
  · simp only [List.mem_filter, decide_eq_true_eq] at hv
    exact hv.2.symm
  · exact absurd hh ((mem_visibleItems s a).1 hv).2

end handlers


/-! ## Well-formed registries -/

theorem QMap.keys_assign_congr {V W : Type} (m1 : QMap V) (m2 : QMap W) (k : QString)
    (v : V) (w : W) (h : QMap.keys m1 = QMap.keys m2) :
    QMap.keys (QMap.assign m1 k v) = QMap.keys (QMap.assign m2 k w) := by
  induction m1 generalizing m2 with
  | nil =>
    cases m2 with
    | nil => rfl
    | cons e m2 => simp [QMap.keys] at h
  | cons e1 m1 ih =>
    cases m2 with
    | nil => simp [QMap.keys] at h
    | cons e2 m2 =>
      simp only [QMap.keys, List.map_cons, List.cons.injEq] at h
      obtain ⟨h1, h2⟩ := h
      simp only [QMap.assign, ← h1]
      split_ifs with ha hb
      · simp [QMap.keys, h1, h2]
      · simp [QMap.keys, h2]
      · have := ih m2 h2
        simp only [QMap.keys] at this
        simp [QMap.keys, h1, this]

theorem QMap.Ordered.nodup {V : Type} {m : QMap V} (h : QMap.Ordered m) :
    (QMap.keys m).Nodup :=
  List.Sorted.nodup h

theorem wellFormed_init {R : Type} : (MainWindow.init : MainWindow R).WellFormed := by
  simp [MainWindow.WellFormed, MainWindow.init, QMap.Ordered, QMap.keys]

theorem discoveredAddresses_cons (c : Command) (cmds : List Command) (a : QString) :
    a ∈ discoveredAddresses (c :: cmds) ↔
      a ∈ discoveredAddresses [c] ∨ a ∈ discoveredAddresses cmds := by
  cases c <;> simp [discoveredAddresses]

theorem wellFormed_hide {R : Type} (s : MainWindow R) (a : QString) (h : s.WellFormed) :
    (onHideDevice s a).WellFormed := by
  unfold MainWindow.WellFormed QMap.Ordered at *
  rw [hide_keys, hide_devicesInfo]
  exact h

section wf
variable {R : Type} [LinearOrderedField R] (cm : CMath R) (s : MainWindow R)

theorem wellFormed_update (h : s.WellFormed) : (updateProximityGraph cm s).WellFormed := by
  unfold MainWindow.WellFormed QMap.Ordered at *
  rw [keys_update, update_devicesInfo]
  exact h

theorem wellFormed_discovered (d : QBluetoothDeviceInfo) (h : s.WellFormed) :
    (onDeviceDiscovered cm s d).WellFormed := by
  rcases Bool.eq_false_or_eq_true (QMap.contains s.m_devicesInfo d.address) with hc | hc
  · rw [discovered_of_known cm s d hc]; exact h
  · rw [discovered_of_new cm s d hc]
    apply wellFormed_update
    exact ⟨QMap.ordered_assign _ _ _ h.1, QMap.keys_assign_congr _ _ _ _ _ h.2⟩

theorem wellFormed_star (a : QString) (h : s.WellFormed) :
    (onStarDevice cm s a).WellFormed := by
  unfold MainWindow.WellFormed QMap.Ordered at *
  rw [star_keys, star_devicesInfo]
  exact h

theorem wellFormed_focus (a : QString) (h : s.WellFormed) :
    (onFocusDevice cm s a).WellFormed := by
  unfold MainWindow.WellFormed QMap.Ordered at *
  rw [focus_keys, focus_devicesInfo]
  exact h

theorem wellFormed_handle (c : Command) (h : s.WellFormed) : (handle cm s c).WellFormed := by
  cases c with
  | discovered d => exact wellFormed_discovered cm s d h
  | hide a => exact wellFormed_hide s a h
  | star a => exact wellFormed_star cm s a h
  | focus a => exact wellFormed_focus cm s a h

theorem wellFormed_run (cmds : List Command) (h : s.WellFormed) :
    (run cm s cmds).WellFormed := by
  induction cmds generalizing s with
  | nil => exact h
  | cons c cmds ih => exact ih (handle cm s c) (wellFormed_handle cm s c h)

theorem discovered_mem_keys (d : QBluetoothDeviceInfo) (h : s.WellFormed) (a : QString) :
    a ∈ QMap.keys (onDeviceDiscovered cm s d).m_deviceItems ↔
      a = d.address ∨ a ∈ QMap.keys s.m_deviceItems := by
  rcases Bool.eq_false_or_eq_true (QMap.contains s.m_devicesInfo d.address) with hc | hc
  · rw [discovered_of_known cm s d hc]
    rw [QMap.contains_iff, h.2] at hc
    constructor
    · exact Or.inr
    · rintro (rfl | h')
      · exact hc
      · exact h'
  · rw [discovered_of_new cm s d hc, keys_update]
    exact QMap.mem_keys_assign _ _ _ _

theorem handle_mem_keys (c : Command) (h : s.WellFormed) (a : QString) :
    a ∈ QMap.keys (handle cm s c).m_deviceItems ↔
      a ∈ discoveredAddresses [c] ∨ a ∈ QMap.keys s.m_deviceItems := by
  cases c with
  | discovered d => simpa [handle, discoveredAddresses] using discovered_mem_keys cm s d h a
  | hide b => simp [handle, discoveredAddresses, hide_keys]
  | star b => simp [handle, discoveredAddresses, star_keys]
  | focus b => simp [handle, discoveredAddresses, focus_keys]

/-- The addresses with an item are those the registry started with and those
discovered since. -/
theorem run_mem_keys (cmds : List Command) (h : s.WellFormed) (a : QString) :
    a ∈ QMap.keys (run cm s cmds).m_deviceItems ↔
      a ∈ QMap.keys s.m_deviceItems ∨ a ∈ discoveredAddresses cmds := by
  induction cmds generalizing s with
  | nil => simp [run, discoveredAddresses]
  | cons c cmds ih =>
    have := ih (handle cm s c) (wellFormed_handle cm s c h)
    simp only [run, List.foldl_cons] at this ⊢
    rw [this, handle_mem_keys cm s c h, discoveredAddresses_cons c cmds]
    tauto

end wf

theorem visibleItems_sorted {R : Type} (s : MainWindow R) (h : QMap.Ordered s.m_deviceItems) :
    (visibleItems s).Sorted (· < ·) := by
  unfold visibleItems
  have : List.map Prod.fst (List.filter (fun e => decide (e.1 ∉ s.m_hiddenDevices))
      s.m_deviceItems) = (QMap.keys s.m_deviceItems).filter
        (fun k => decide (k ∉ s.m_hiddenDevices)) := by
    simp [QMap.keys, List.filter_map, Function.comp_def]
  rw [this]
  exact List.Sorted.filter _ h


/-! ## The placement the layout gives each visible item -/

theorem QMap.value_map {V W : Type} (m : QMap V) (g : QString → V → W) (k : QString) :
    QMap.value (m.map (fun e => (e.1, g e.1 e.2))) k = (QMap.value m k).map (g k) := by
  induction m with
  | nil => rfl
  | cons e m ih =>
    simp only [List.map_cons, QMap.value]
    split_ifs with h
    · simp [h]
    · exact ih

/-- With no focus, the layout gives the item at index `i` of `visibleItems`
the placement of index `i` among `n = visibleItems.size()`, and shows it. -/
theorem update_value_visible {R : Type} [LinearOrderedField R] (cm : CMath R)
    (s : MainWindow R) (ho : QMap.Ordered s.m_deviceItems) (hf : s.m_focusedDevice = [])
    (i : Nat) (hi : i < (visibleItems s).length) :
    QMap.value (updateProximityGraph cm s).m_deviceItems (visibleItems s)[i] =
      (QMap.value s.m_deviceItems (visibleItems s)[i]).map
        (fun item => placeItem cm i (visibleItems s).length (item.setVisible true)) := by
  have hv : visibleItems s ≠ [] := by
    intro h; rw [h] at hi; simp at hi
  have hnd : (visibleItems s).Nodup := (visibleItems_sorted s ho).nodup
  have hmem : (visibleItems s)[i] ∉ s.m_hiddenDevices :=
    ((mem_visibleItems s _).1 (List.getElem_mem hi)).2
  rw [update_of_some cm s hf hv]
  show QMap.value (arrange cm _ 0 _ _) _ = _
  rw [value_arrange_get cm _ _ hnd 0 _ i hi,
    QMap.value_map s.m_deviceItems
      (fun k item => item.setVisible (decide (k ∉ s.m_hiddenDevices)))]
  simp [hmem, Function.comp_def]

/-- C1 (amended): the sequence of devices the layout iterates over is ordered
by address, not by discovery. After any sequence of discoveries and commands
on a fresh registry, `visibleItems` is in strictly ascending address order and
holds exactly the discovered addresses that are not in the hidden set; and with
no focus set the layout gives the `i`-th of them the placement of index `i`
(angle `2*pi*i/n`). -/
theorem visibleItems_in_address_order {R : Type} [LinearOrderedField R] (cm : CMath R)
    (cmds : List Command) :
    (visibleItems (run cm MainWindow.init cmds)).Sorted (· < ·) ∧
    (∀ a, a ∈ visibleItems (run cm MainWindow.init cmds) ↔
      a ∈ discoveredAddresses cmds ∧ a ∉ (run cm MainWindow.init cmds).m_hiddenDevices) ∧
    ((run cm MainWindow.init cmds).m_focusedDevice = [] →
      ∀ (i : Nat) (hi : i < (visibleItems (run cm MainWindow.init cmds)).length),
        QMap.value (updateProximityGraph cm (run cm MainWindow.init cmds)).m_deviceItems
            (visibleItems (run cm MainWindow.init cmds))[i] =
          (QMap.value (run cm MainWindow.init cmds).m_deviceItems
            (visibleItems (run cm MainWindow.init cmds))[i]).map
            (fun item => placeItem cm i (visibleItems (run cm MainWindow.init cmds)).length
              (item.setVisible true))) := by
  have hwf := wellFormed_run cm MainWindow.init cmds wellFormed_init
  refine ⟨visibleItems_sorted _ hwf.1, ?_, ?_⟩
  · intro a
    rw [mem_visibleItems, run_mem_keys cm _ cmds wellFormed_init]
    simp [MainWindow.init, QMap.keys]
  · intro hf i hi
    exact update_value_visible cm _ hwf.1 hf i hi

/-- C1, the claim as stated fails: "00:00:00:00:00:BB" is discovered first and "00:00:00:00:00:AA"
second, nothing is hidden and no focus is set, and the layout iterates over
"00:00:00:00:00:AA" (index 0) before "00:00:00:00:00:BB" (index 1). -/
theorem visibleItems_not_in_discovery_order :
    visibleItems (run (CMath.mk Real.rpow Real.cos Real.sin Real.pi) MainWindow.init
      [.discovered ⟨qs "00:00:00:00:00:BB", qs "Phone", -59⟩, .discovered ⟨qs "00:00:00:00:00:AA", qs "Watch", -40⟩])
      = [qs "00:00:00:00:00:AA", qs "00:00:00:00:00:BB"] ∧
    visibleItems (run (CMath.mk Real.rpow Real.cos Real.sin Real.pi) MainWindow.init
      [.discovered ⟨qs "00:00:00:00:00:BB", qs "Phone", -59⟩, .discovered ⟨qs "00:00:00:00:00:AA", qs "Watch", -40⟩])
      ≠ [qs "00:00:00:00:00:BB", qs "00:00:00:00:00:AA"] := by
  decide

/-! ## Hiding -/

theorem hidden_handle {R : Type} [LinearOrderedField R] (cm : CMath R) (s : MainWindow R)
    (a : QString) (c : Command)
    (h : a ∈ s.m_hiddenDevices ∧ (a ∈ visibleDevices s → s.m_focusedDevice = a)) :
    a ∈ (handle cm s c).m_hiddenDevices ∧
      (a ∈ visibleDevices (handle cm s c) → (handle cm s c).m_focusedDevice = a) := by
  cases c with
  | discovered d =>
    simp only [handle]
    rcases Bool.eq_false_or_eq_true (QMap.contains s.m_devicesInfo d.address) with hc | hc
    · rw [discovered_of_known cm s d hc]; exact h
    · rw [discovered_of_new cm s d hc, update_hidden, update_focused]
      exact ⟨h.1, fun hv => focused_of_visible_update cm _ a h.1 hv⟩
  | hide b =>
    simp only [handle]
    rw [hide_hidden, hide_focused]
    exact ⟨Finset.mem_insert_of_mem h.1, fun hv => h.2 (mem_visibleDevices_hide s b a hv).1⟩
  | star b =>
    simp only [handle, onStarDevice]
    split_ifs <;> rw [update_hidden, update_focused] <;>
      exact ⟨h.1, fun hv => focused_of_visible_update cm _ a h.1 hv⟩
  | focus b =>
    simp only [handle, onFocusDevice]
    split_ifs <;> rw [update_hidden, update_focused] <;>
      exact ⟨h.1, fun hv => focused_of_visible_update cm _ a h.1 hv⟩

theorem hidden_run {R : Type} [LinearOrderedField R] (cm : CMath R) (s : MainWindow R)
    (a : QString) (cmds : List Command)
    (h : a ∈ s.m_hiddenDevices ∧ (a ∈ visibleDevices s → s.m_focusedDevice = a)) :
    a ∈ (run cm s cmds).m_hiddenDevices ∧
      (a ∈ visibleDevices (run cm s cmds) → (run cm s cmds).m_focusedDevice = a) := by
  induction cmds generalizing s with
  | nil => exact h
  | cons c cmds ih => exact ih (handle cm s c) (hidden_handle cm s a c h)

/-- C3 (amended): once `onHideDevice(A)` has run, after any further sequence of
discoveries, hide, star and focus commands, `A` is not among the visible
devices whenever the focus is not `A` itself (no focus, or another device). -/
theorem hidden_device_not_visible_unless_focused {R : Type} [LinearOrderedField R]
    (cm : CMath R) (s : MainWindow R) (a : QString) (cmds : List Command)
    (hf : (run cm (onHideDevice s a) cmds).m_focusedDevice ≠ a) :
    a ∉ visibleDevices (run cm (onHideDevice s a) cmds) := by
  intro hv
  refine hf ((hidden_run cm (onHideDevice s a) a cmds ⟨?_, ?_⟩).2 hv)
  · rw [hide_hidden]; exact Finset.mem_insert_self _ _
  · intro h; exact absurd rfl (mem_visibleDevices_hide s a a h).2

/-- C3 (amended) at a concrete run: "00:00:00:00:00:AA" and "00:00:00:00:00:BB"
are discovered, "00:00:00:00:00:AA" is hidden, then starred, a third device
appears and "00:00:00:00:00:BB" is focused. -/
theorem hidden_device_not_visible_unless_focused_witness :
    qs "00:00:00:00:00:AA" ∉ visibleDevices
      (run (CMath.mk Real.rpow Real.cos Real.sin Real.pi)
        (onHideDevice
          (run (CMath.mk Real.rpow Real.cos Real.sin Real.pi) MainWindow.init
            [.discovered ⟨qs "00:00:00:00:00:AA", qs "Watch", -40⟩,
             .discovered ⟨qs "00:00:00:00:00:BB", qs "Phone", -59⟩])
          (qs "00:00:00:00:00:AA"))
        [.star (qs "00:00:00:00:00:AA"), .discovered ⟨qs "00:00:00:00:00:CC", qs "Lamp", -90⟩, .focus (qs "00:00:00:00:00:BB")]) :=
  hidden_device_not_visible_unless_focused _ _ _ _ (by decide)

/-- C3, the claim as stated fails: "00:00:00:00:00:AA" is discovered and hidden, and a
focus command on "00:00:00:00:00:AA" makes it the one visible device again. -/
theorem hidden_device_visible_again_when_focused :
    qs "00:00:00:00:00:AA" ∈ visibleDevices
      (run (CMath.mk Real.rpow Real.cos Real.sin Real.pi)
        (onHideDevice
          (onDeviceDiscovered (CMath.mk Real.rpow Real.cos Real.sin Real.pi) MainWindow.init
            ⟨qs "00:00:00:00:00:AA", qs "Watch", -40⟩)
          (qs "00:00:00:00:00:AA"))
        [.focus (qs "00:00:00:00:00:AA")]) := by
  decide


/-! ## Focus -/

theorem filter_eq_singleton (l : List QString) (a : QString) (h : l.Nodup) (ha : a ∈ l) :
    l.filter (fun k => decide (k = a)) = [a] := by
  rw [List.filter_eq l a, List.count_eq_one_of_mem h ha]
  rfl

theorem visibleItems_eq_filter {R : Type} (s : MainWindow R) :
    visibleItems s =
      (QMap.keys s.m_deviceItems).filter (fun k => decide (k ∉ s.m_hiddenDevices)) := by
  simp [visibleItems, QMap.keys, List.filter_map, Function.comp_def]

/-- The first focus command on `a`: `a` becomes the focus and the layout runs. -/
theorem focus_of_ne {R : Type} [LinearOrderedField R] (cm : CMath R) (s : MainWindow R)
    (a : QString) (h : s.m_focusedDevice ≠ a) :
    onFocusDevice cm s a = updateProximityGraph cm { s with m_focusedDevice := a } := by
  simp only [onFocusDevice, if_neg h]

/-- A focus command on the focused address clears the focus and the layout
runs. -/
theorem focus_of_eq {R : Type} [LinearOrderedField R] (cm : CMath R) (s : MainWindow R)
    (a : QString) (h : s.m_focusedDevice = a) :
    onFocusDevice cm s a = updateProximityGraph cm { s with m_focusedDevice := [] } := by
  simp only [onFocusDevice, if_pos h]

/-- In focus mode the layout puts the focused item at (400, 300). -/
theorem update_value_focused {R : Type} [LinearOrderedField R] (cm : CMath R)
    (s : MainWindow R) (hf : s.m_focusedDevice ≠ []) :
    QMap.value (updateProximityGraph cm s).m_deviceItems s.m_focusedDevice =
      (QMap.value s.m_deviceItems s.m_focusedDevice).map
        (fun item => (item.setVisible true).setPos 400 300) := by
  rw [update_of_focus cm s hf]
  have : (fun e : QString × DeviceItem R =>
      if e.1 = s.m_focusedDevice then
        (e.1, (e.2.setVisible (decide (e.1 = s.m_focusedDevice))).setPos 400 300)
      else (e.1, e.2.setVisible (decide (e.1 = s.m_focusedDevice)))) =
      (fun e => (e.1, (fun k item =>
        if k = s.m_focusedDevice then
          (item.setVisible (decide (k = s.m_focusedDevice))).setPos 400 300
        else item.setVisible (decide (k = s.m_focusedDevice))) e.1 e.2)) := by
    funext e
    by_cases h : e.1 = s.m_focusedDevice <;> simp [h]
  show QMap.value (List.map _ _) _ = _
  rw [this]
  refine (QMap.value_map s.m_deviceItems (fun k item =>
    if k = s.m_focusedDevice then
      (item.setVisible (decide (k = s.m_focusedDevice))).setPos 400 300
    else item.setVisible (decide (k = s.m_focusedDevice))) s.m_focusedDevice).trans ?_
  simp

/-- C4: focus exclusivity. In a registry where `a` has a record and is not
the focus, a focus command on `a` leaves `a` as the only visible device, placed
at the canvas centre (400, 300), whatever is hidden or starred; a second focus
command on `a` clears the focus and the visible devices are again exactly the
devices that are not hidden. (An address is the text of a `QBluetoothAddress`
and so is never the empty string.) -/
theorem focus_exclusive {R : Type} [LinearOrderedField R] (cm : CMath R) (s : MainWindow R)
    (a : QString) (hwf : s.WellFormed) (ha : a ∈ QMap.keys s.m_deviceItems) (hne : a ≠ [])
    (hf : s.m_focusedDevice ≠ a) :
    visibleDevices (onFocusDevice cm s a) = [a] ∧
    (∃ item, QMap.value (onFocusDevice cm s a).m_deviceItems a = some item ∧
      item.pos = (400, 300)) ∧
    (onFocusDevice cm (onFocusDevice cm s a) a).m_focusedDevice = [] ∧
    visibleDevices (onFocusDevice cm (onFocusDevice cm s a) a) =
      (QMap.keys s.m_deviceItems).filter (fun k => decide (k ∉ s.m_hiddenDevices)) := by
  have h1 : (onFocusDevice cm s a).m_focusedDevice = a := by
    rw [focus_focused, if_neg hf]
  refine ⟨?_, ?_, ?_, ?_⟩
  · rw [focus_of_ne cm s a hf, visibleDevices_update]
    simp only [ne_eq, hne, not_false_eq_true, if_true]
    exact filter_eq_singleton _ a hwf.1.nodup ha
  · obtain ⟨item, hitem⟩ := QMap.value_of_mem_keys _ _ ha
    refine ⟨(item.setVisible true).setPos 400 300, ?_, rfl⟩
    rw [focus_of_ne cm s a hf]
    have := update_value_focused cm { s with m_focusedDevice := a } hne
    simp only [hitem, Option.map_some'] at this
    exact this
  · rw [focus_focused, if_pos h1]
  · rw [focus_of_eq cm _ a h1, visibleDevices_update]
    simp only [ne_eq, not_true_eq_false, if_false]
    rw [visibleItems_eq_filter]
    simp only [focus_keys, focus_hidden]

/-- C4 at a concrete registry: "00:00:00:00:00:AA" (hidden) and "00:00:00:00:00:BB" (starred) are
known and nothing is focused; the focus command is on "00:00:00:00:00:AA". -/
theorem focus_exclusive_witness :
    visibleDevices (onFocusDevice (CMath.mk Real.rpow Real.cos Real.sin Real.pi)
      (run (CMath.mk Real.rpow Real.cos Real.sin Real.pi) MainWindow.init
        [.discovered ⟨qs "00:00:00:00:00:AA", qs "Watch", -40⟩, .discovered ⟨qs "00:00:00:00:00:BB", qs "Phone", -59⟩,
         .hide (qs "00:00:00:00:00:AA"), .star (qs "00:00:00:00:00:BB")]) (qs "00:00:00:00:00:AA")) = [qs "00:00:00:00:00:AA"] ∧
    (∃ item, QMap.value (onFocusDevice (CMath.mk Real.rpow Real.cos Real.sin Real.pi)
      (run (CMath.mk Real.rpow Real.cos Real.sin Real.pi) MainWindow.init
        [.discovered ⟨qs "00:00:00:00:00:AA", qs "Watch", -40⟩, .discovered ⟨qs "00:00:00:00:00:BB", qs "Phone", -59⟩,
         .hide (qs "00:00:00:00:00:AA"), .star (qs "00:00:00:00:00:BB")]) (qs "00:00:00:00:00:AA")).m_deviceItems (qs "00:00:00:00:00:AA")
        = some item ∧ item.pos = (400, 300)) ∧
    (onFocusDevice (CMath.mk Real.rpow Real.cos Real.sin Real.pi)
      (onFocusDevice (CMath.mk Real.rpow Real.cos Real.sin Real.pi)
        (run (CMath.mk Real.rpow Real.cos Real.sin Real.pi) MainWindow.init
          [.discovered ⟨qs "00:00:00:00:00:AA", qs "Watch", -40⟩, .discovered ⟨qs "00:00:00:00:00:BB", qs "Phone", -59⟩,
           .hide (qs "00:00:00:00:00:AA"), .star (qs "00:00:00:00:00:BB")]) (qs "00:00:00:00:00:AA")) (qs "00:00:00:00:00:AA")).m_focusedDevice
      = [] ∧
    visibleDevices (onFocusDevice (CMath.mk Real.rpow Real.cos Real.sin Real.pi)
      (onFocusDevice (CMath.mk Real.rpow Real.cos Real.sin Real.pi)
        (run (CMath.mk Real.rpow Real.cos Real.sin Real.pi) MainWindow.init
          [.discovered ⟨qs "00:00:00:00:00:AA", qs "Watch", -40⟩, .discovered ⟨qs "00:00:00:00:00:BB", qs "Phone", -59⟩,
           .hide (qs "00:00:00:00:00:AA"), .star (qs "00:00:00:00:00:BB")]) (qs "00:00:00:00:00:AA")) (qs "00:00:00:00:00:AA")) =
      (QMap.keys (run (CMath.mk Real.rpow Real.cos Real.sin Real.pi) MainWindow.init
        [.discovered ⟨qs "00:00:00:00:00:AA", qs "Watch", -40⟩, .discovered ⟨qs "00:00:00:00:00:BB", qs "Phone", -59⟩,
         .hide (qs "00:00:00:00:00:AA"), .star (qs "00:00:00:00:00:BB")]).m_deviceItems).filter
        (fun k => decide (k ∉ (run (CMath.mk Real.rpow Real.cos Real.sin Real.pi)
          MainWindow.init
          [.discovered ⟨qs "00:00:00:00:00:AA", qs "Watch", -40⟩, .discovered ⟨qs "00:00:00:00:00:BB", qs "Phone", -59⟩,
           .hide (qs "00:00:00:00:00:AA"), .star (qs "00:00:00:00:00:BB")]).m_hiddenDevices)) :=
  focus_exclusive _ _ _ (by decide) (by decide) (by decide) (by decide)


/-! ## Records survive every event -/

/-- The layout keeps, under every key, the item's device info, distance and
star. -/
theorem update_value_core {R : Type} [LinearOrderedField R] (cm : CMath R)
    (s : MainWindow R) (k : QString) :
    (QMap.value (updateProximityGraph cm s).m_deviceItems k).map
        (fun item => (item.m_info, item.m_distance, item.m_starred)) =
      (QMap.value s.m_deviceItems k).map
        (fun item => (item.m_info, item.m_distance, item.m_starred)) := by
  have h := congrArg (fun m => QMap.value m k) (update_map_core cm s)
  exact (QMap.value_map (updateProximityGraph cm s).m_deviceItems
      (fun _ item => (item.m_info, item.m_distance, item.m_starred)) k).symm.trans
    (h.trans (QMap.value_map s.m_deviceItems
      (fun _ item => (item.m_info, item.m_distance, item.m_starred)) k))

theorem update_value_some {R : Type} [LinearOrderedField R] (cm : CMath R)
    (s : MainWindow R) (k : QString) (item : DeviceItem R)
    (h : QMap.value s.m_deviceItems k = some item) :
    ∃ item2, QMap.value (updateProximityGraph cm s).m_deviceItems k = some item2 ∧
      item2.m_info = item.m_info ∧ item2.m_distance = item.m_distance ∧
      item2.m_starred = item.m_starred := by
  have hc := update_value_core cm s k
  rw [h] at hc
  cases hv : QMap.value (updateProximityGraph cm s).m_deviceItems k with
  | none => rw [hv] at hc; simp at hc
  | some item2 =>
    rw [hv] at hc
    simp only [Option.map_some', Option.some.injEq, Prod.mk.injEq] at hc
    exact ⟨item2, rfl, hc.1, hc.2.1, hc.2.2⟩

/-- The record of an address: the registry knows the address, and its item
carries the given device info and distance. -/
theorem record_handle {R : Type} [LinearOrderedField R] (cm : CMath R) (s : MainWindow R)
    (a : QString) (info : QBluetoothDeviceInfo) (dist : R) (c : Command)
    (h : QMap.contains s.m_devicesInfo a = true ∧
      ∃ item, QMap.value s.m_deviceItems a = some item ∧ item.m_info = info ∧
        item.m_distance = dist) :
    QMap.contains (handle cm s c).m_devicesInfo a = true ∧
      ∃ item, QMap.value (handle cm s c).m_deviceItems a = some item ∧ item.m_info = info ∧
        item.m_distance = dist := by
  obtain ⟨hk, item, hv, hi, hd⟩ := h
  cases c with
  | discovered d =>
    simp only [handle]
    rcases Bool.eq_false_or_eq_true (QMap.contains s.m_devicesInfo d.address) with hc | hc
    · rw [discovered_of_known cm s d hc]; exact ⟨hk, item, hv, hi, hd⟩
    · have hne : a ≠ d.address := by
        rintro rfl; rw [hk] at hc; exact Bool.noConfusion hc
      rw [discovered_of_new cm s d hc, update_devicesInfo]
      refine ⟨?_, ?_⟩
      · rw [QMap.contains_iff] at hk ⊢
        exact (QMap.mem_keys_assign _ _ _ _).2 (Or.inr hk)
      · obtain ⟨item2, h2, hi2, hd2, _⟩ := update_value_some cm
          { s with m_devicesInfo := s.m_devicesInfo.assign d.address d,
                   m_deviceItems := s.m_deviceItems.assign d.address
                     (((DeviceItem.new d).setDistanceFromRSSI cm d.rssi).setStarred
                       (decide (d.address ∈ s.m_starredDevices))) } a item
          (by show QMap.value (QMap.assign _ _ _) a = _
              rw [QMap.value_assign, if_neg hne]; exact hv)
        exact ⟨item2, h2, hi2.trans hi, hd2.trans hd⟩
  | hide b =>
    simp only [handle]
    rw [hide_devicesInfo]
    refine ⟨hk, ?_⟩
    unfold onHideDevice
    split_ifs
    · show ∃ item, QMap.value (QMap.modify _ _ _) a = some item ∧ _
      rw [QMap.value_modify, hv]
      split_ifs
      · exact ⟨item.hide, rfl, hi, hd⟩
      · exact ⟨item, rfl, hi, hd⟩
    · exact ⟨item, hv, hi, hd⟩
  | star b =>
    simp only [handle]
    rw [star_devicesInfo]
    refine ⟨hk, ?_⟩
    have key : ∀ (st : Bool) (fs : Finset QString),
        ∃ item2, QMap.value (updateProximityGraph cm
          { s with m_starredDevices := fs,
                   m_deviceItems :=
                     if s.m_deviceItems.contains b then
                       s.m_deviceItems.modify b (fun item => item.setStarred st)
                     else s.m_deviceItems }).m_deviceItems a = some item2 ∧
          item2.m_info = info ∧ item2.m_distance = dist := by
      intro st fs
      have hpre : ∃ item1, QMap.value (if s.m_deviceItems.contains b then
            s.m_deviceItems.modify b (fun item => item.setStarred st)
          else s.m_deviceItems) a = some item1 ∧ item1.m_info = info ∧
          item1.m_distance = dist := by
        split_ifs
        · rw [QMap.value_modify, hv]
          split_ifs
          · exact ⟨item.setStarred st, rfl, hi, hd⟩
          · exact ⟨item, rfl, hi, hd⟩
        · exact ⟨item, hv, hi, hd⟩
      obtain ⟨item1, h1, hi1, hd1⟩ := hpre
      obtain ⟨item2, h2, hi2, hd2, _⟩ := update_value_some cm
        { s with m_starredDevices := fs,
                 m_deviceItems :=
                   if s.m_deviceItems.contains b then
                     s.m_deviceItems.modify b (fun item => item.setStarred st)
                   else s.m_deviceItems } a item1 h1
      exact ⟨item2, h2, hi2.trans hi1, hd2.trans hd1⟩
    by_cases hs : b ∈ s.m_starredDevices
    · simp only [onStarDevice, if_pos hs]
      exact key false _
    · simp only [onStarDevice, if_neg hs]
      exact key true _
  | focus b =>
    simp only [handle]
    rw [focus_devicesInfo]
    refine ⟨hk, ?_⟩
    unfold onFocusDevice
    split_ifs
    · obtain ⟨item2, h2, hi2, hd2, _⟩ :=
        update_value_some cm { s with m_focusedDevice := [] } a item hv
      exact ⟨item2, h2, hi2.trans hi, hd2.trans hd⟩
    · obtain ⟨item2, h2, hi2, hd2, _⟩ :=
        update_value_some cm { s with m_focusedDevice := b } a item hv
      exact ⟨item2, h2, hi2.trans hi, hd2.trans hd⟩

theorem record_run {R : Type} [LinearOrderedField R] (cm : CMath R) (s : MainWindow R)
    (a : QString) (info : QBluetoothDeviceInfo) (dist : R) (cmds : List Command)
    (h : QMap.contains s.m_devicesInfo a = true ∧
      ∃ item, QMap.value s.m_deviceItems a = some item ∧ item.m_info = info ∧
        item.m_distance = dist) :
    QMap.contains (run cm s cmds).m_devicesInfo a = true ∧
      ∃ item, QMap.value (run cm s cmds).m_deviceItems a = some item ∧ item.m_info = info ∧
        item.m_distance = dist := by
  induction cmds generalizing s with
  | nil => exact h
  | cons c cmds ih => exact ih (handle cm s c) (record_handle cm s a info dist c h)

/-- A first discovery creates the record of the device: the registry knows the
address, and the item carries the device's info, the distance computed from
its signal strength, and the star the starred set holds for the address. -/
theorem record_of_new {R : Type} [LinearOrderedField R] (cm : CMath R) (s : MainWindow R)
    (d : QBluetoothDeviceInfo) (h : QMap.contains s.m_devicesInfo d.address = false) :
    QMap.contains (onDeviceDiscovered cm s d).m_devicesInfo d.address = true ∧
      ∃ item, QMap.value (onDeviceDiscovered cm s d).m_deviceItems d.address = some item ∧
        item.m_info = d ∧
        item.m_distance =
          (if distanceFromRSSI cm d.rssi > 0 then distanceFromRSSI cm d.rssi else 1.0) ∧
        item.m_starred = decide (d.address ∈ s.m_starredDevices) := by
  rw [discovered_of_new cm s d h, update_devicesInfo]
  refine ⟨?_, ?_⟩
  · rw [QMap.contains_iff]
    exact (QMap.mem_keys_assign _ _ _ _).2 (Or.inl rfl)
  · obtain ⟨item2, h2, hi2, hd2, hs2⟩ := update_value_some cm
      { s with m_devicesInfo := s.m_devicesInfo.assign d.address d,
               m_deviceItems := s.m_deviceItems.assign d.address
                 (((DeviceItem.new d).setDistanceFromRSSI cm d.rssi).setStarred
                   (decide (d.address ∈ s.m_starredDevices))) } d.address _
      (by show QMap.value (QMap.assign _ _ _) d.address = _
          rw [QMap.value_assign, if_pos rfl])
    exact ⟨item2, h2, hi2, hd2, hs2⟩

/-- C5: duplicate suppression, first discovery wins. After a discovery event
for a device, any sequence of further events (discoveries and commands, no
adapter selection), and a second discovery event with the same address, the
second event changes no part of the registry; and if the first event was the
first discovery of the address, its record still has the first event's display
name and the distance computed from the first event's signal strength. -/
theorem first_discovery_wins {R : Type} [LinearOrderedField R] (cm : CMath R)
    (s : MainWindow R) (d1 d2 : QBluetoothDeviceInfo) (cmds : List Command)
    (haddr : d2.address = d1.address) :
    onDeviceDiscovered cm (run cm (onDeviceDiscovered cm s d1) cmds) d2 =
      run cm (onDeviceDiscovered cm s d1) cmds ∧
    (QMap.contains s.m_devicesInfo d1.address = false →
      ∃ item, QMap.value
          (onDeviceDiscovered cm (run cm (onDeviceDiscovered cm s d1) cmds) d2).m_deviceItems
          d1.address = some item ∧
        item.name = d1.name ∧
        item.distance =
          (if distanceFromRSSI cm d1.rssi > 0 then distanceFromRSSI cm d1.rssi else 1.0)) := by
  have hknown : QMap.contains (run cm (onDeviceDiscovered cm s d1) cmds).m_devicesInfo
      d2.address = true := by
    rw [haddr]
    rcases Bool.eq_false_or_eq_true (QMap.contains s.m_devicesInfo d1.address) with hc | hc
    · have h1 : QMap.contains (onDeviceDiscovered cm s d1).m_devicesInfo d1.address = true := by
        rw [discovered_of_known cm s d1 hc]; exact hc
      rw [QMap.contains_iff] at h1 ⊢
      have hsub : ∀ (t : MainWindow R) (cs : List Command),
          d1.address ∈ QMap.keys t.m_devicesInfo →
            d1.address ∈ QMap.keys (run cm t cs).m_devicesInfo := by
        intro t cs
        induction cs generalizing t with
        | nil => exact id
        | cons c cs ih =>
          intro ht
          refine ih (handle cm t c) ?_
          cases c with
          | discovered d =>
            simp only [handle]
            rcases Bool.eq_false_or_eq_true (QMap.contains t.m_devicesInfo d.address)
              with hd | hd
            · rw [discovered_of_known cm t d hd]; exact ht
            · rw [discovered_of_new cm t d hd, update_devicesInfo]
              exact (QMap.mem_keys_assign _ _ _ _).2 (Or.inr ht)
          | hide b => simp only [handle]; rw [hide_devicesInfo]; exact ht
          | star b => simp only [handle]; rw [star_devicesInfo]; exact ht
          | focus b => simp only [handle]; rw [focus_devicesInfo]; exact ht
      exact hsub _ cmds h1
    · obtain ⟨h1, item, hv, hi, hd, _⟩ := record_of_new cm s d1 hc
      exact (record_run cm _ d1.address d1 _ cmds ⟨h1, item, hv, hi, hd⟩).1
  have hsame := discovered_of_known cm _ d2 hknown
  refine ⟨hsame, ?_⟩
  intro hc
  rw [hsame]
  obtain ⟨h1, item, hv, hi, hd, _⟩ := record_of_new cm s d1 hc
  obtain ⟨_, item2, hv2, hi2, hd2⟩ :=
    record_run cm _ d1.address d1 _ cmds ⟨h1, item, hv, hi, hd⟩
  exact ⟨item2, hv2, by simp [DeviceItem.name, hi2], by simp [DeviceItem.distance, hd2]⟩

/-- C5 at a concrete run: "00:00:00:00:00:AA" is first discovered as "Watch" at
-40 dBm, then another device appears and "00:00:00:00:00:AA" is starred, then
"00:00:00:00:00:AA" is discovered again as "Renamed" at -90 dBm. -/
theorem first_discovery_wins_witness :
    onDeviceDiscovered (CMath.mk Real.rpow Real.cos Real.sin Real.pi)
        (run (CMath.mk Real.rpow Real.cos Real.sin Real.pi)
          (onDeviceDiscovered (CMath.mk Real.rpow Real.cos Real.sin Real.pi) MainWindow.init
            ⟨qs "00:00:00:00:00:AA", qs "Watch", -40⟩)
          [.discovered ⟨qs "00:00:00:00:00:BB", qs "Phone", -59⟩, .star (qs "00:00:00:00:00:AA")])
        ⟨qs "00:00:00:00:00:AA", qs "Renamed", -90⟩ =
      run (CMath.mk Real.rpow Real.cos Real.sin Real.pi)
        (onDeviceDiscovered (CMath.mk Real.rpow Real.cos Real.sin Real.pi) MainWindow.init
          ⟨qs "00:00:00:00:00:AA", qs "Watch", -40⟩)
        [.discovered ⟨qs "00:00:00:00:00:BB", qs "Phone", -59⟩, .star (qs "00:00:00:00:00:AA")] ∧
    ∃ item, QMap.value
        (onDeviceDiscovered (CMath.mk Real.rpow Real.cos Real.sin Real.pi)
          (run (CMath.mk Real.rpow Real.cos Real.sin Real.pi)
            (onDeviceDiscovered (CMath.mk Real.rpow Real.cos Real.sin Real.pi) MainWindow.init
              ⟨qs "00:00:00:00:00:AA", qs "Watch", -40⟩)
            [.discovered ⟨qs "00:00:00:00:00:BB", qs "Phone", -59⟩, .star (qs "00:00:00:00:00:AA")])
          ⟨qs "00:00:00:00:00:AA", qs "Renamed", -90⟩).m_deviceItems (qs "00:00:00:00:00:AA") = some item ∧
      item.name = qs "Watch" ∧
      item.distance =
        (if distanceFromRSSI (CMath.mk Real.rpow Real.cos Real.sin Real.pi) (-40) > 0 then
          distanceFromRSSI (CMath.mk Real.rpow Real.cos Real.sin Real.pi) (-40) else 1.0) :=
  ⟨(first_discovery_wins (CMath.mk Real.rpow Real.cos Real.sin Real.pi) MainWindow.init
      ⟨qs "00:00:00:00:00:AA", qs "Watch", -40⟩ ⟨qs "00:00:00:00:00:AA", qs "Renamed", -90⟩
      [.discovered ⟨qs "00:00:00:00:00:BB", qs "Phone", -59⟩, .star (qs "00:00:00:00:00:AA")] rfl).1,
   (first_discovery_wins (CMath.mk Real.rpow Real.cos Real.sin Real.pi) MainWindow.init
      ⟨qs "00:00:00:00:00:AA", qs "Watch", -40⟩ ⟨qs "00:00:00:00:00:AA", qs "Renamed", -90⟩
      [.discovered ⟨qs "00:00:00:00:00:BB", qs "Phone", -59⟩, .star (qs "00:00:00:00:00:AA")] rfl).2 (by decide)⟩


/-! ## Commands on an address without a record -/

/-- C6: distance positivity. Whatever `std::pow` returns, the distance that
`setDistanceFromRSSI` stores, `distanceFromRSSI(rssi)` if that is positive and
1.0 otherwise, is strictly positive for every signal-strength reading, and it
is exactly 1.0 for the reading 0. -/
theorem stored_distance_positive {R : Type} [LinearOrderedField R] (cm : CMath R)
    (item : DeviceItem R) (rssi : Int) :
    (item.setDistanceFromRSSI cm rssi).distance =
        (if distanceFromRSSI cm rssi > 0 then distanceFromRSSI cm rssi else 1.0) ∧
    0 < (item.setDistanceFromRSSI cm rssi).distance ∧
    (item.setDistanceFromRSSI cm 0).distance = 1.0 := by
  refine ⟨rfl, ?_, ?_⟩
  · simp only [DeviceItem.setDistanceFromRSSI, DeviceItem.distance]
    split_ifs with h
    · exact h
    · norm_num
  · simp only [DeviceItem.setDistanceFromRSSI, DeviceItem.distance, distanceFromRSSI]
    norm_num

/-- Over the real numbers, with the real power function for `std::pow`, the
value of `distanceFromRSSI` at a nonzero reading. -/
theorem distanceFromRSSI_real (rssi : Int) (h : rssi ≠ 0) :
    distanceFromRSSI (CMath.mk Real.rpow Real.cos Real.sin Real.pi) rssi =
      if (rssi : ℝ) / (-59) < 1 then ((rssi : ℝ) / (-59)) ^ (10 : ℝ)
      else 0.89976 * ((rssi : ℝ) / (-59)) ^ (7.7095 : ℝ) + 0.111 := by
  simp only [distanceFromRSSI, if_neg h]
  norm_num

/-- C7: distance monotonicity, over the real numbers with the real power
function for `std::pow`. For negative readings `s2 < s1` (`s1` the stronger
signal) `distanceFromRSSI(s1) < distanceFromRSSI(s2)`, on either side of the
branch at -59 and across it; in particular
`distanceFromRSSI(-40) < distanceFromRSSI(-59) < distanceFromRSSI(-90)`. -/
theorem distance_strictly_decreasing (s1 s2 : Int) (h1 : s1 < 0) (h2 : s2 < s1) :
    distanceFromRSSI (CMath.mk Real.rpow Real.cos Real.sin Real.pi) s1 <
      distanceFromRSSI (CMath.mk Real.rpow Real.cos Real.sin Real.pi) s2 := by
  have hs1 : s1 ≠ 0 := by omega
  have hs2 : s2 ≠ 0 := by omega
  rw [distanceFromRSSI_real s1 hs1, distanceFromRSSI_real s2 hs2]
  have c1 : (s1 : ℝ) < 0 := by exact_mod_cast h1
  have c2 : (s2 : ℝ) < (s1 : ℝ) := by exact_mod_cast h2
  have r1pos : 0 < (s1 : ℝ) / (-59) := by linarith
  have r12 : (s1 : ℝ) / (-59) < (s2 : ℝ) / (-59) := by linarith
  have up : 0.89976 * ((s1 : ℝ) / (-59)) ^ (7.7095 : ℝ) + 0.111 <
      0.89976 * ((s2 : ℝ) / (-59)) ^ (7.7095 : ℝ) + 0.111 := by
    have := Real.rpow_lt_rpow r1pos.le r12 (by norm_num : (0 : ℝ) < 7.7095)
    linarith
  by_cases hb2 : (s2 : ℝ) / (-59) < 1
  · have hb1 : (s1 : ℝ) / (-59) < 1 := lt_trans r12 hb2
    rw [if_pos hb1, if_pos hb2]
    exact Real.rpow_lt_rpow r1pos.le r12 (by norm_num)
  · by_cases hb1 : (s1 : ℝ) / (-59) < 1
    · rw [if_pos hb1, if_neg hb2]
      have low : ((s1 : ℝ) / (-59)) ^ (10 : ℝ) < 1 :=
        Real.rpow_lt_one r1pos.le hb1 (by norm_num)
      have high : 1 ≤ ((s2 : ℝ) / (-59)) ^ (7.7095 : ℝ) :=
        Real.one_le_rpow (not_lt.1 hb2) (by norm_num)
      linarith
    · rw [if_neg hb1, if_neg hb2]
      exact up

/-- C7 at the readings of the specification: -40, -59 and -90 dBm. -/
theorem distance_strictly_decreasing_witness :
    distanceFromRSSI (CMath.mk Real.rpow Real.cos Real.sin Real.pi) (-40) <
      distanceFromRSSI (CMath.mk Real.rpow Real.cos Real.sin Real.pi) (-59) ∧
    distanceFromRSSI (CMath.mk Real.rpow Real.cos Real.sin Real.pi) (-59) <
      distanceFromRSSI (CMath.mk Real.rpow Real.cos Real.sin Real.pi) (-90) :=
  ⟨distance_strictly_decreasing (-40) (-59) (by decide) (by decide),
   distance_strictly_decreasing (-59) (-90) (by decide) (by decide)⟩


/-! ## The layout on the canvas -/

theorem value_arrange_placed {R : Type} [LinearOrderedField R] (cm : CMath R) (n : Nat)
    (ks : List QString) (i : Nat) (items : QMap (DeviceItem R)) (k : QString)
    (item : DeviceItem R) (hk : k ∈ ks)
    (hv : QMap.value (arrange cm n i ks items) k = some item) :
    ∃ j item0, item = placeItem cm j n item0 := by
  induction ks generalizing i items with
  | nil => simp at hk
  | cons k0 ks ih =>
    simp only [arrange] at hv
    by_cases hmem : k ∈ ks
    · exact ih _ _ hmem hv
    · have hk0 : k = k0 := by
        rcases List.mem_cons.1 hk with h | h
        · exact h
        · exact absurd h hmem
      rw [value_arrange_of_not_mem _ _ _ _ _ _ hmem, QMap.value_modify, if_pos hk0] at hv
      cases hv0 : QMap.value items k with
      | none => rw [hv0] at hv; simp at hv
      | some item0 =>
        rw [hv0] at hv
        simp only [Option.map_some', Option.some.injEq] at hv
        exact ⟨i, item0, hv.symm⟩

/-- With no focus, every item the layout leaves visible went through the body
of the layout loop. -/
theorem update_visible_placed {R : Type} [LinearOrderedField R] (cm : CMath R)
    (s : MainWindow R) (hf : s.m_focusedDevice = []) (k : QString) (item : DeviceItem R)
    (hv : QMap.value (updateProximityGraph cm s).m_deviceItems k = some item)
    (hvis : item.visible = true) :
    ∃ j item0, item = placeItem cm j (visibleItems s).length item0 := by
  have hvm := congrArg (fun m => QMap.value m k) (update_map_visible cm s)
  have hvm2 : (QMap.value (updateProximityGraph cm s).m_deviceItems k).map
      (fun item => item.visible) =
      (QMap.value s.m_deviceItems k).map (fun _ => decide (k ∉ s.m_hiddenDevices)) := by
    refine (QMap.value_map (updateProximityGraph cm s).m_deviceItems
      (fun _ item => item.visible) k).symm.trans (hvm.trans ?_)
    have := QMap.value_map s.m_deviceItems
      (fun (k : QString) (_ : DeviceItem R) => decide (k ∉ s.m_hiddenDevices)) k
    simpa [hf] using this
  rw [hv] at hvm2
  simp only [Option.map_some', hvis] at hvm2
  cases h0 : QMap.value s.m_deviceItems k with
  | none => rw [h0] at hvm2; simp at hvm2
  | some item1 =>
    rw [h0] at hvm2
    simp only [Option.map_some', Option.some.injEq] at hvm2
    have hnot : k ∉ s.m_hiddenDevices := by
      have := hvm2.symm
      simpa using this
    have hk : k ∈ visibleItems s :=
      (mem_visibleItems s k).2 ⟨QMap.mem_keys_of_value _ _ _ h0, hnot⟩
    have hne : visibleItems s ≠ [] := List.ne_nil_of_mem hk
    rw [update_of_some cm s hf hne] at hv
    exact value_arrange_placed cm _ _ _ _ k item hk hv

/-! ## Rounding to binary64 -/

theorem roundHalfEven_intCast (m : ℤ) : roundHalfEven (m : ℚ) = m := by
  simp [roundHalfEven]

theorem roundHalfEven_bounds (t : ℚ) : ⌊t⌋ ≤ roundHalfEven t ∧ roundHalfEven t ≤ ⌊t⌋ + 1 := by
  simp only [roundHalfEven]
  split_ifs <;> omega

theorem roundHalfEven_mono {t u : ℚ} (h : t ≤ u) : roundHalfEven t ≤ roundHalfEven u := by
  have hfl : ⌊t⌋ ≤ ⌊u⌋ := Int.floor_le_floor h
  rcases lt_or_eq_of_le hfl with hlt | heq
  · have h1 := (roundHalfEven_bounds t).2
    have h2 := (roundHalfEven_bounds u).1
    omega
  · simp only [roundHalfEven]
    rw [heq]
    have hr : t - (⌊u⌋ : ℚ) ≤ u - (⌊u⌋ : ℚ) := by linarith
    split_ifs <;> first | omega | (exfalso; linarith)

theorem roundHalfEven_neg (t : ℚ) : roundHalfEven (-t) = -roundHalfEven t := by
  by_cases hint : ((⌊t⌋ : ℤ) : ℚ) = t
  · rw [← hint, ← Int.cast_neg, roundHalfEven_intCast, roundHalfEven_intCast]
  · have h1 : ((⌊t⌋ : ℤ) : ℚ) < t := lt_of_le_of_ne (Int.floor_le t) hint
    have h2 : t < (⌊t⌋ : ℚ) + 1 := Int.lt_floor_add_one t
    have hfl : ⌊-t⌋ = -⌊t⌋ - 1 := by
      rw [Int.floor_eq_iff]
      push_cast
      constructor <;> linarith
    simp only [roundHalfEven]
    rw [hfl]
    push_cast
    split_ifs <;> first | omega | (exfalso; linarith)

theorem binary64_zero : binary64 0 = 0 := by simp [binary64]

theorem binary64_neg (q : ℚ) : binary64 (-q) = -binary64 q := by
  by_cases h : q = 0
  · simp [h, binary64]
  · have h2 : -q ≠ 0 := neg_ne_zero.2 h
    simp only [binary64, h, h2, if_false, abs_neg, neg_div, roundHalfEven_neg, Int.cast_neg,
      neg_mul]

theorem scaled_bounds {x : ℚ} (hx : 0 < x) :
    (2 : ℚ) ^ (52 : ℤ) ≤ x / 2 ^ (Int.log 2 x - 52) ∧
      x / 2 ^ (Int.log 2 x - 52) < (2 : ℚ) ^ (53 : ℤ) := by
  have hlo : ((2 : ℕ) : ℚ) ^ Int.log 2 x ≤ x := Int.zpow_log_le_self (by norm_num) hx
  have hhi : x < ((2 : ℕ) : ℚ) ^ (Int.log 2 x + 1) := Int.lt_zpow_succ_log_self (by norm_num) x
  simp only [Nat.cast_ofNat] at hlo hhi
  have hpos : (0 : ℚ) < 2 ^ (Int.log 2 x - 52) := zpow_pos (by norm_num) _
  constructor
  · rw [le_div_iff₀ hpos, ← zpow_add₀ (by norm_num : (2 : ℚ) ≠ 0)]
    have : (52 : ℤ) + (Int.log 2 x - 52) = Int.log 2 x := by ring
    rw [this]; exact hlo
  · rw [div_lt_iff₀ hpos, ← zpow_add₀ (by norm_num : (2 : ℚ) ≠ 0)]
    have : (53 : ℤ) + (Int.log 2 x - 52) = Int.log 2 x + 1 := by ring
    rw [this]; exact hhi

theorem binary64_of_pos {x : ℚ} (hx : 0 < x) :
    binary64 x = (roundHalfEven (x / 2 ^ (Int.log 2 x - 52)) : ℚ) * 2 ^ (Int.log 2 x - 52) := by
  simp only [binary64, hx.ne', if_false, abs_of_pos hx]

theorem rounded_bounds {x : ℚ} (hx : 0 < x) :
    (2 : ℤ) ^ 52 ≤ roundHalfEven (x / 2 ^ (Int.log 2 x - 52)) ∧
      roundHalfEven (x / 2 ^ (Int.log 2 x - 52)) ≤ (2 : ℤ) ^ 53 := by
  obtain ⟨h1, h2⟩ := scaled_bounds hx
  constructor
  · have := roundHalfEven_mono (t := (((2 : ℤ) ^ 52 : ℤ) : ℚ)) (by push_cast; exact_mod_cast h1)
    rwa [roundHalfEven_intCast] at this
  · have := roundHalfEven_mono (u := (((2 : ℤ) ^ 53 : ℤ) : ℚ)) (by push_cast; exact_mod_cast h2.le)
    rwa [roundHalfEven_intCast] at this

theorem binary64_pos {x : ℚ} (hx : 0 < x) : 0 < binary64 x := by
  rw [binary64_of_pos hx]
  have h := (rounded_bounds hx).1
  have : (0 : ℚ) < (roundHalfEven (x / 2 ^ (Int.log 2 x - 52)) : ℚ) := by
    have : (0 : ℤ) < roundHalfEven (x / 2 ^ (Int.log 2 x - 52)) := lt_of_lt_of_le (by norm_num) h
    exact_mod_cast this
  exact mul_pos this (zpow_pos (by norm_num) _)

theorem binary64_mono_pos {x y : ℚ} (hx : 0 < x) (hxy : x ≤ y) : binary64 x ≤ binary64 y := by
  have hy : 0 < y := lt_of_lt_of_le hx hxy
  have he : Int.log 2 x ≤ Int.log 2 y := Int.log_mono_right hx hxy
  rw [binary64_of_pos hx, binary64_of_pos hy]
  rcases lt_or_eq_of_le he with hlt | heq
  · have hux : (0 : ℚ) < 2 ^ (Int.log 2 x - 52) := zpow_pos (by norm_num) _
    have huy : (0 : ℚ) < 2 ^ (Int.log 2 y - 52) := zpow_pos (by norm_num) _
    have h1 : (roundHalfEven (x / 2 ^ (Int.log 2 x - 52)) : ℚ) ≤ (2 : ℚ) ^ (53 : ℤ) := by
      have := (rounded_bounds hx).2
      exact_mod_cast this
    have h2 : (2 : ℚ) ^ (52 : ℤ) ≤ (roundHalfEven (y / 2 ^ (Int.log 2 y - 52)) : ℚ) := by
      have := (rounded_bounds hy).1
      exact_mod_cast this
    calc (roundHalfEven (x / 2 ^ (Int.log 2 x - 52)) : ℚ) * 2 ^ (Int.log 2 x - 52)
        ≤ (2 : ℚ) ^ (53 : ℤ) * 2 ^ (Int.log 2 x - 52) := mul_le_mul_of_nonneg_right h1 hux.le
      _ = (2 : ℚ) ^ (Int.log 2 x + 1) := by
          rw [← zpow_add₀ (by norm_num : (2 : ℚ) ≠ 0)]; congr 1; ring
      _ ≤ (2 : ℚ) ^ (Int.log 2 y) := zpow_le_zpow_right₀ (by norm_num) (by omega)
      _ = (2 : ℚ) ^ (52 : ℤ) * 2 ^ (Int.log 2 y - 52) := by
          rw [← zpow_add₀ (by norm_num : (2 : ℚ) ≠ 0)]; congr 1; ring
      _ ≤ (roundHalfEven (y / 2 ^ (Int.log 2 y - 52)) : ℚ) * 2 ^ (Int.log 2 y - 52) :=
          mul_le_mul_of_nonneg_right h2 huy.le
  · rw [heq]
    have huy : (0 : ℚ) < 2 ^ (Int.log 2 y - 52) := zpow_pos (by norm_num) _
    have : roundHalfEven (x / 2 ^ (Int.log 2 y - 52)) ≤ roundHalfEven (y / 2 ^ (Int.log 2 y - 52)) :=
      roundHalfEven_mono (div_le_div_of_nonneg_right hxy huy.le)
    exact mul_le_mul_of_nonneg_right (by exact_mod_cast this) huy.le

/-- Rounding to binary64 is monotone. -/
theorem binary64_monotone : Monotone binary64 := by
  intro x y hxy
  rcases lt_trichotomy x 0 with hx | hx | hx
  · rcases lt_trichotomy y 0 with hy | hy | hy
    · have := binary64_mono_pos (neg_pos.2 hy) (neg_le_neg hxy)
      rw [binary64_neg, binary64_neg] at this
      linarith
    · rw [hy, binary64_zero]
      have := binary64_pos (neg_pos.2 hx)
      rw [binary64_neg] at this
      linarith
    · have h1 := binary64_pos (neg_pos.2 hx)
      rw [binary64_neg] at h1
      have h2 := binary64_pos hy
      linarith
  · rw [hx] at hxy ⊢
    rw [binary64_zero]
    rcases lt_or_eq_of_le hxy with hy | hy
    · exact (binary64_pos hy).le
    · rw [← hy, binary64_zero]
  · exact binary64_mono_pos hx hxy

/-- Rounding to binary64 leaves the integers below `2^53` in magnitude as they are. -/
theorem binary64_natCast (n : ℕ) (hn : n < 2 ^ 53) : binary64 (n : ℚ) = n := by
  rcases Nat.eq_zero_or_pos n with rfl | hpos
  · simp [binary64_zero]
  · have hx : (0 : ℚ) < n := by exact_mod_cast hpos
    rw [binary64_of_pos hx, Int.log_natCast]
    have hle : Nat.log 2 n ≤ 52 := by
      have := Nat.log_lt_of_lt_pow (by omega) hn
      omega
    obtain ⟨k, hk⟩ : ∃ k : ℕ, Nat.log 2 n + k = 52 := ⟨52 - Nat.log 2 n, by omega⟩
    have hexp : ((Nat.log 2 n : ℕ) : ℤ) - 52 = -(k : ℤ) := by omega
    rw [hexp, zpow_neg, zpow_natCast, div_inv_eq_mul]
    have : (n : ℚ) * 2 ^ k = ((n * 2 ^ k : ℕ) : ℤ) := by push_cast; ring
    rw [this, roundHalfEven_intCast]
    push_cast
    field_simp

theorem binary64_intCast (m : ℤ) (hm : |m| ≤ 650) : binary64 (m : ℚ) = m := by
  rcases le_total 0 m with h | h
  · obtain ⟨n, rfl⟩ := Int.eq_ofNat_of_zero_le h
    have : n < 2 ^ 53 := by
      have : (n : ℤ) ≤ 650 := by rwa [abs_of_nonneg h] at hm
      omega
    simpa using binary64_natCast n this
  · obtain ⟨n, hn⟩ := Int.eq_ofNat_of_zero_le (neg_nonneg.2 h)
    have hm2 : m = -(n : ℤ) := by omega
    have : n < 2 ^ 53 := by
      have : -m ≤ 650 := by rwa [abs_of_nonpos h] at hm
      omega
    rw [hm2]
    push_cast
    rw [binary64_neg, binary64_natCast n this]

theorem binary64_of_exponent {q : ℚ} (e : ℤ) (hq : 0 < q) (h1 : (2 : ℚ) ^ e ≤ q)
    (h2 : q < (2 : ℚ) ^ (e + 1)) :
    binary64 q = (roundHalfEven (q / 2 ^ (e - 52)) : ℚ) * 2 ^ (e - 52) := by
  have hlog : Int.log 2 q = e := by
    apply le_antisymm
    · have := (Int.lt_zpow_iff_log_lt (b := 2) (by norm_num) hq (x := e + 1)).1
        (by simpa using h2)
      omega
    · exact (Int.zpow_le_iff_le_log (b := 2) (by norm_num) hq).1 (by simpa using h1)
  rw [binary64_of_pos hq, hlog]

/-- The doubles behind the stored distance 1.9565e-18: the ratio `1.0 / 59` of
the readings -1 and +1, and its tenth power rounded to binary64. -/
theorem stored_distance_of_reading_one :
    binary64 (1 / 59) = 4885260612740877 / 2 ^ 58 ∧
    binary64 ((4885260612740877 / 2 ^ 58) ^ 10) = 5079364768425711 / 2 ^ 111 := by
  constructor
  · rw [binary64_of_exponent (-6) (by norm_num) (by norm_num) (by norm_num)]
    have : roundHalfEven ((1 / 59 : ℚ) / 2 ^ ((-6 : ℤ) - 52)) = 4885260612740877 := by decide!
    rw [this]
    norm_num
  · rw [binary64_of_exponent (-59) (by norm_num) (by norm_num) (by norm_num)]
    have : roundHalfEven (((4885260612740877 / 2 ^ 58 : ℚ)) ^ 10 / 2 ^ ((-59 : ℤ) - 52))
        = 5079364768425711 := by decide!
    rw [this]
    norm_num

/-! ## The layout with rounded arithmetic -/

/-- With the identity for the rounding, the rounded loop body is the exact one. -/
theorem placeItemRounded_id {R : Type} [LinearOrderedField R] (cm : CMath R) (i n : Nat)
    (item : DeviceItem R) : placeItemRounded id cm i n item = placeItem cm i n item := rfl

theorem arrangeRounded_id {R : Type} [LinearOrderedField R] (cm : CMath R) (n : Nat)
    (ks : List QString) (i : Nat) (items : QMap (DeviceItem R)) :
    arrangeRounded id cm n i ks items = arrange cm n i ks items := by
  induction ks generalizing i items with
  | nil => rfl
  | cons k ks ih =>
    simp only [arrangeRounded, arrange]
    rw [ih]
    rfl

/-- With the identity for the rounding, the rounded layout is the exact one. -/
theorem updateProximityGraphRounded_id {R : Type} [LinearOrderedField R] (cm : CMath R)
    (s : MainWindow R) : updateProximityGraphRounded id cm s = updateProximityGraph cm s := by
  simp only [updateProximityGraphRounded, updateProximityGraph, arrangeRounded_id]

theorem value_arrangeRounded_of_not_mem {R : Type} [LinearOrderedField R] (fl : R → R)
    (cm : CMath R) (n : Nat) (ks : List QString) (i : Nat) (items : QMap (DeviceItem R))
    (k : QString) (hk : k ∉ ks) :
    QMap.value (arrangeRounded fl cm n i ks items) k = QMap.value items k := by
  induction ks generalizing i items with
  | nil => rfl
  | cons k0 ks ih =>
    simp only [List.mem_cons, not_or] at hk
    simp only [arrangeRounded]
    rw [ih _ _ hk.2, QMap.value_modify, if_neg hk.1]

theorem value_arrangeRounded_placed {R : Type} [LinearOrderedField R] (fl : R → R)
    (cm : CMath R) (n : Nat) (ks : List QString) (i : Nat) (items : QMap (DeviceItem R))
    (k : QString) (item : DeviceItem R) (hk : k ∈ ks)
    (hv : QMap.value (arrangeRounded fl cm n i ks items) k = some item) :
    ∃ j item0, item = placeItemRounded fl cm j n item0 := by
  induction ks generalizing i items with
  | nil => simp at hk
  | cons k0 ks ih =>
    simp only [arrangeRounded] at hv
    by_cases hmem : k ∈ ks
    · exact ih _ _ hmem hv
    · have hk0 : k = k0 := by
        rcases List.mem_cons.1 hk with h | h
        · exact h
        · exact absurd h hmem
      rw [value_arrangeRounded_of_not_mem _ _ _ _ _ _ _ hmem, QMap.value_modify,
        if_pos hk0] at hv
      cases hv0 : QMap.value items k with
      | none => rw [hv0] at hv; simp at hv
      | some item0 =>
        rw [hv0] at hv
        simp only [Option.map_some', Option.some.injEq] at hv
        exact ⟨i, item0, hv.symm⟩

theorem map_visible_arrangeRounded {R : Type} [LinearOrderedField R] (fl : R → R)
    (cm : CMath R) (n : Nat) (ks : List QString) (i : Nat) (items : QMap (DeviceItem R)) :
    (arrangeRounded fl cm n i ks items).map (fun e => (e.1, e.2.visible)) =
      items.map (fun e => (e.1, e.2.visible)) := by
  induction ks generalizing i items with
  | nil => rfl
  | cons k ks ih =>
    simp only [arrangeRounded]
    rw [ih]
    exact QMap.map_modify items k (placeItemRounded fl cm i n)
      (fun it : DeviceItem R => it.visible) (fun _ => rfl)

/-- With no focus, every item the rounded layout leaves visible went through
the rounded body of the layout loop. -/
theorem updateRounded_visible_placed {R : Type} [LinearOrderedField R] (fl : R → R)
    (cm : CMath R) (s : MainWindow R) (hf : s.m_focusedDevice = []) (k : QString)
    (item : DeviceItem R)
    (hv : QMap.value (updateProximityGraphRounded fl cm s).m_deviceItems k = some item)
    (hvis : item.visible = true) :
    ∃ j item0, item = placeItemRounded fl cm j (visibleItems s).length item0 := by
  by_cases hne : visibleItems s = []
  · exfalso
    simp only [updateProximityGraphRounded, hf, hne, ne_eq, not_true_eq_false, if_false,
      if_true] at hv
    have hv2 := (QMap.value_map s.m_deviceItems
      (fun k item => item.setVisible (decide (k ∉ s.m_hiddenDevices))) k).symm.trans hv
    cases h0 : QMap.value s.m_deviceItems k with
    | none => rw [h0] at hv2; simp at hv2
    | some item1 =>
      rw [h0] at hv2
      simp only [Option.map_some', Option.some.injEq] at hv2
      rw [← hv2] at hvis
      simp only [DeviceItem.setVisible, decide_eq_true_eq] at hvis
      have hk : k ∈ visibleItems s :=
        (mem_visibleItems s k).2 ⟨QMap.mem_keys_of_value _ _ _ h0, hvis⟩
      rw [hne] at hk
      simp at hk
  · simp only [updateProximityGraphRounded, hf, hne, ne_eq, not_true_eq_false, if_false] at hv
    have hvm := congrArg (fun m => QMap.value m k)
      (map_visible_arrangeRounded fl cm (visibleItems s).length (visibleItems s) 0
        (s.m_deviceItems.map (fun e =>
          (e.1, e.2.setVisible (decide (e.1 ∉ s.m_hiddenDevices))))))
    have hvm2 := (QMap.value_map _ (fun _ (it : DeviceItem R) => it.visible) k).symm.trans
      (hvm.trans (QMap.value_map _ (fun _ (it : DeviceItem R) => it.visible) k))
    rw [hv] at hvm2
    have hshown := QMap.value_map s.m_deviceItems
      (fun k item => item.setVisible (decide (k ∉ s.m_hiddenDevices))) k
    rw [hshown] at hvm2
    cases h0 : QMap.value s.m_deviceItems k with
    | none => rw [h0] at hvm2; simp at hvm2
    | some item1 =>
      rw [h0] at hvm2
      simp only [Option.map_some', Option.some.injEq, hvis, DeviceItem.setVisible] at hvm2
      have hnot : k ∉ s.m_hiddenDevices := by
        have := hvm2.symm
        simpa using this
      have hk : k ∈ visibleItems s :=
        (mem_visibleItems s k).2 ⟨QMap.mem_keys_of_value _ _ _ h0, hnot⟩
      exact value_arrangeRounded_placed fl cm _ _ _ _ k item hk hv

/-- What the rounded body of the layout loop gives an item, for any rounding
that is monotone and leaves the integers up to 650 in magnitude as they are,
and any cosine and sine with values in `[-1, 1]`. -/
theorem placeItemRounded_on_canvas {R : Type} [LinearOrderedField R] (fl : R → R)
    (cm : CMath R) (hmono : Monotone fl) (hint : ∀ m : ℤ, |m| ≤ 650 → fl (m : R) = m)
    (hcos : ∀ x, |cm.cos x| ≤ 1) (hsin : ∀ x, |cm.sin x| ≤ 1) (j n : Nat)
    (item0 : DeviceItem R) :
    0 ≤ (placeItemRounded fl cm j n item0).zValue ∧
    (placeItemRounded fl cm j n item0).zValue ≤ 1 ∧
    150 ≤ (placeItemRounded fl cm j n item0).pos.1 ∧
    (placeItemRounded fl cm j n item0).pos.1 ≤ 650 ∧
    50 ≤ (placeItemRounded fl cm j n item0).pos.2 ∧
    (placeItemRounded fl cm j n item0).pos.2 ≤ 550 ∧
    ((placeItemRounded fl cm j n item0).distance ≤ 0 ∨
        (placeItemRounded fl cm j n item0).distance > 10 →
      (placeItemRounded fl cm j n item0).pos = (400, 300)) := by
  have f0 : fl 0 = 0 := by simpa using hint 0 (by norm_num)
  have f1 : fl 1 = 1 := by simpa using hint 1 (by norm_num)
  have f10 : fl 10 = 10 := by simpa using hint 10 (by norm_num)
  have f50 : fl 50 = 50 := by simpa using hint 50 (by norm_num)
  have f150 : fl 150 = 150 := by simpa using hint 150 (by norm_num)
  have f250 : fl 250 = 250 := by simpa using hint 250 (by norm_num)
  have f300 : fl 300 = 300 := by simpa using hint 300 (by norm_num)
  have f400 : fl 400 = 400 := by simpa using hint 400 (by norm_num)
  have f550 : fl 550 = 550 := by simpa using hint 550 (by norm_num)
  have f650 : fl 650 = 650 := by simpa using hint 650 (by norm_num)
  have fm250 : fl (-250) = -250 := by simpa using hint (-250) (by norm_num)
  have e10 : (10.0 : R) = 10 := by norm_num
  simp only [placeItemRounded, DeviceItem.setZValue, DeviceItem.setPos, DeviceItem.distance,
    e10, Int.cast_ofNat]
  generalize hd : (if item0.m_distance ≤ 0 ∨ item0.m_distance > 10 then (10 : R)
    else item0.m_distance) = d
  have hd0 : 0 < d ∧ d ≤ 10 := by
    rw [← hd]
    split_ifs with h
    · constructor <;> norm_num
    · push_neg at h
      exact ⟨h.1, h.2⟩
  have ha : 0 ≤ fl (10 - d) ∧ fl (10 - d) ≤ 10 :=
    ⟨f0.ge.trans (hmono (by linarith)), (hmono (by linarith)).trans f10.le⟩
  have hz : 0 ≤ fl (fl (10 - d) / 10) ∧ fl (fl (10 - d) / 10) ≤ 1 :=
    ⟨f0.ge.trans (hmono (by linarith)), (hmono (by linarith)).trans f1.le⟩
  have hcentre : (item0.m_distance ≤ 0 ∨ item0.m_distance > 10) →
      fl (fl (10 - d) / 10) = 0 := by
    intro h
    rw [← hd, if_pos h]
    simp [f0]
  generalize fl (fl (10 - d) / 10) = z at hz hcentre
  have hr : 0 ≤ fl (250 * z) ∧ fl (250 * z) ≤ 250 :=
    ⟨f0.ge.trans (hmono (by linarith)), (hmono (by linarith)).trans f250.le⟩
  have hu : ∀ c : R, |c| ≤ 1 →
      -250 ≤ fl (fl (250 * z) * c) ∧ fl (fl (250 * z) * c) ≤ 250 := by
    intro c hc
    obtain ⟨hc1, hc2⟩ := abs_le.1 hc
    exact ⟨fm250.ge.trans (hmono (by nlinarith)), (hmono (by nlinarith)).trans f250.le⟩
  have hcx := hu _ (hcos (fl (fl (fl (2 * cm.M_PI) * (j : R)) / (n : R))))
  have hsy := hu _ (hsin (fl (fl (fl (2 * cm.M_PI) * (j : R)) / (n : R))))
  refine ⟨hz.1, hz.2, f150.ge.trans (hmono (by linarith)), (hmono (by linarith)).trans f650.le,
    f50.ge.trans (hmono (by linarith)), (hmono (by linarith)).trans f550.le, ?_⟩
  intro h
  rw [hcentre h]
  simp [f0, f400, f300]

/-- In exact real arithmetic, the z-value and position the body of the layout
loop gives an item. -/
theorem placeItem_exact (j n : Nat) (item0 : DeviceItem ℝ) :
    0 ≤ (placeItem (CMath.mk Real.rpow Real.cos Real.sin Real.pi) j n item0).zValue ∧
    (placeItem (CMath.mk Real.rpow Real.cos Real.sin Real.pi) j n item0).pos =
      (400 + 250 * (placeItem (CMath.mk Real.rpow Real.cos Real.sin Real.pi) j n item0).zValue
          * Real.cos (2 * Real.pi * j / n),
       300 + 250 * (placeItem (CMath.mk Real.rpow Real.cos Real.sin Real.pi) j n item0).zValue
          * Real.sin (2 * Real.pi * j / n)) := by
  simp only [placeItem, DeviceItem.setZValue, DeviceItem.setPos, DeviceItem.distance]
  refine ⟨?_, ?_⟩
  · split_ifs with h
    · norm_num
    · push_neg at h
      have := h.2
      norm_num at this ⊢
      linarith
  · norm_num

/-- In exact real arithmetic, every device the overview layout shows is at the
Euclidean distance `250 * ratio` from the centre (400, 300). -/
theorem layout_radius_exact (s : MainWindow ℝ) (hf : s.m_focusedDevice = [])
    (k : QString) (item : DeviceItem ℝ)
    (hv : QMap.value (updateProximityGraph (CMath.mk Real.rpow Real.cos Real.sin Real.pi)
      s).m_deviceItems k = some item)
    (hvis : item.visible = true) :
    Real.sqrt ((item.pos.1 - 400) ^ 2 + (item.pos.2 - 300) ^ 2) = 250 * item.zValue := by
  obtain ⟨j, item0, rfl⟩ := update_visible_placed _ s hf k item hv hvis
  obtain ⟨hz0, hpos⟩ := placeItem_exact j (visibleItems s).length item0
  generalize placeItem (CMath.mk Real.rpow Real.cos Real.sin Real.pi) j
    (visibleItems s).length item0 = placed at hz0 hpos
  have hcs := Real.cos_sq_add_sin_sq (2 * Real.pi * j / (visibleItems s).length)
  generalize Real.cos (2 * Real.pi * j / (visibleItems s).length) = c at hpos hcs
  generalize Real.sin (2 * Real.pi * j / (visibleItems s).length) = sn at hpos hcs
  have hx : placed.pos.1 = 400 + 250 * placed.zValue * c := by rw [hpos]
  have hy : placed.pos.2 = 300 + 250 * placed.zValue * sn := by rw [hpos]
  have hsq : (placed.pos.1 - 400) ^ 2 + (placed.pos.2 - 300) ^ 2 = (250 * placed.zValue) ^ 2 := by
    rw [hx, hy]
    have : (400 + 250 * placed.zValue * c - 400) ^ 2 + (300 + 250 * placed.zValue * sn - 300) ^ 2
        = (250 * placed.zValue) ^ 2 * (c ^ 2 + sn ^ 2) := by ring
    rw [this, hcs, mul_one]
  rw [hsq]
  exact Real.sqrt_sq (by linarith)

/-- In binary64, a stored distance of at most `2^-50` (about 8.9e-16) is lost
in `10.0 - dist`, and the ratio `(10.0 - dist) / 10.0` is exactly 1. -/
theorem ratio_one_of_small_distance (d : ℚ) (h0 : 0 < d) (h1 : d ≤ 2 ^ (-50 : ℤ)) :
    binary64 (binary64 (10 - d) / 10) = 1 := by
  have hlow : binary64 (10 - 2 ^ (-50 : ℤ)) = 10 := by decide!
  have hten : binary64 10 = 10 := by decide!
  have h : binary64 (10 - d) = 10 := by
    apply le_antisymm
    · exact (binary64_monotone (by linarith)).trans hten.le
    · exact hlow.ge.trans (binary64_monotone (by linarith))
  rw [h]
  decide!

/-- C10 (amended): the overview layout stays on the canvas, with the bounds
attained. Whatever the arithmetic rounds to, as long as the rounding is
monotone and leaves the integers up to 650 in magnitude unchanged (exact
arithmetic, and the binary64 arithmetic of the program, `binary64_monotone`
and `binary64_intCast`), and for any cosine and sine with values in `[-1, 1]`:
with no focus set and whatever the stored distances are (non-positive and
above 10 included), every device the layout shows gets a z-value (ratio) in the
closed interval `[0, 1]` and a position with `150 ≤ x ≤ 650` and
`50 ≤ y ≤ 550`, inside the 800x600 scene, and a device whose distance is
non-positive or above 10 is placed exactly at the centre (400, 300). In exact
real arithmetic the Euclidean distance of the position from the centre is
`250 * ratio`. -/
theorem layout_on_canvas {R : Type} [LinearOrderedField R] (fl : R → R) (cm : CMath R)
    (hmono : Monotone fl) (hint : ∀ m : ℤ, |m| ≤ 650 → fl (m : R) = m)
    (hcos : ∀ x, |cm.cos x| ≤ 1) (hsin : ∀ x, |cm.sin x| ≤ 1)
    (s : MainWindow R) (hf : s.m_focusedDevice = []) (k : QString) (item : DeviceItem R)
    (hv : QMap.value (updateProximityGraphRounded fl cm s).m_deviceItems k = some item)
    (hvis : item.visible = true) :
    (0 ≤ item.zValue ∧ item.zValue ≤ 1 ∧
      150 ≤ item.pos.1 ∧ item.pos.1 ≤ 650 ∧ 50 ≤ item.pos.2 ∧ item.pos.2 ≤ 550 ∧
      (item.distance ≤ 0 ∨ item.distance > 10 → item.pos = (400, 300))) ∧
    (∀ (t : MainWindow ℝ) (j : QString) (placed : DeviceItem ℝ),
      t.m_focusedDevice = [] →
      QMap.value (updateProximityGraphRounded id
        (CMath.mk Real.rpow Real.cos Real.sin Real.pi) t).m_deviceItems j = some placed →
      placed.visible = true →
      Real.sqrt ((placed.pos.1 - 400) ^ 2 + (placed.pos.2 - 300) ^ 2)
        = 250 * placed.zValue) := by
  constructor
  · obtain ⟨j, item0, rfl⟩ := updateRounded_visible_placed fl cm s hf k item hv hvis
    exact placeItemRounded_on_canvas fl cm hmono hint hcos hsin j _ item0
  · intro t j placed ht hp hpv
    rw [updateProximityGraphRounded_id] at hp
    exact layout_radius_exact t ht j placed hp hpv

/-- C10 (amended) at the registry on which `onDeviceDiscovered` runs the
layout for a first device with the reading -1. In exact real arithmetic, with
the real power, cosine and sine, the item is the one `onDeviceDiscovered`
builds. In binary64, with any cosine and sine with values in `[-1, 1]`, the
stored distance is the double 1.9565e-18 (`5079364768425711 * 2^-111`). -/
theorem layout_on_canvas_witness :
    (∃ item : DeviceItem ℝ,
      QMap.value (updateProximityGraphRounded id (CMath.mk Real.rpow Real.cos Real.sin Real.pi)
        { m_deviceItems := [(qs "00:00:00:00:00:AA",
            ((DeviceItem.new ⟨qs "00:00:00:00:00:AA", qs "Watch", -1⟩).setDistanceFromRSSI
              (CMath.mk Real.rpow Real.cos Real.sin Real.pi) (-1)).setStarred false)],
          m_devicesInfo :=
            [(qs "00:00:00:00:00:AA", ⟨qs "00:00:00:00:00:AA", qs "Watch", -1⟩)],
          m_hiddenDevices := ∅, m_starredDevices := ∅,
          m_focusedDevice := [] }).m_deviceItems (qs "00:00:00:00:00:AA") = some item ∧
      0 ≤ item.zValue ∧ item.zValue ≤ 1 ∧
      150 ≤ item.pos.1 ∧ item.pos.1 ≤ 650 ∧ 50 ≤ item.pos.2 ∧ item.pos.2 ≤ 550 ∧
      (item.distance ≤ 0 ∨ item.distance > 10 → item.pos = (400, 300))) ∧
    (∀ cm : CMath ℚ, (∀ x, |cm.cos x| ≤ 1) → (∀ x, |cm.sin x| ≤ 1) →
      ∃ item : DeviceItem ℚ,
        QMap.value (updateProximityGraphRounded binary64 cm
          { m_deviceItems := [(qs "00:00:00:00:00:AA",
              { m_info := ⟨qs "00:00:00:00:00:AA", qs "Watch", -1⟩,
                m_distance := 5079364768425711 / 2 ^ 111, m_starred := false,
                visible := true, pos := (0, 0), zValue := 0 })],
            m_devicesInfo :=
              [(qs "00:00:00:00:00:AA", ⟨qs "00:00:00:00:00:AA", qs "Watch", -1⟩)],
            m_hiddenDevices := ∅, m_starredDevices := ∅,
            m_focusedDevice := [] }).m_deviceItems (qs "00:00:00:00:00:AA") = some item ∧
        0 ≤ item.zValue ∧ item.zValue ≤ 1 ∧
        150 ≤ item.pos.1 ∧ item.pos.1 ≤ 650 ∧ 50 ≤ item.pos.2 ∧ item.pos.2 ≤ 550 ∧
        (item.distance ≤ 0 ∨ item.distance > 10 → item.pos = (400, 300))) :=
  ⟨⟨_, rfl, (layout_on_canvas id (CMath.mk Real.rpow Real.cos Real.sin Real.pi) monotone_id
      (fun _ _ => rfl) Real.abs_cos_le_one Real.abs_sin_le_one
      { m_deviceItems := [(qs "00:00:00:00:00:AA",
          ((DeviceItem.new ⟨qs "00:00:00:00:00:AA", qs "Watch", -1⟩).setDistanceFromRSSI
            (CMath.mk Real.rpow Real.cos Real.sin Real.pi) (-1)).setStarred false)],
        m_devicesInfo :=
          [(qs "00:00:00:00:00:AA", ⟨qs "00:00:00:00:00:AA", qs "Watch", -1⟩)],
        m_hiddenDevices := ∅, m_starredDevices := ∅,
        m_focusedDevice := [] }
      rfl (qs "00:00:00:00:00:AA") _ rfl rfl).1⟩,
   fun cm hcos hsin => ⟨_, rfl, (layout_on_canvas binary64 cm binary64_monotone
      (fun m hm => by exact_mod_cast binary64_intCast m hm) hcos hsin
      { m_deviceItems := [(qs "00:00:00:00:00:AA",
          { m_info := ⟨qs "00:00:00:00:00:AA", qs "Watch", -1⟩,
            m_distance := 5079364768425711 / 2 ^ 111, m_starred := false,
            visible := true, pos := (0, 0), zValue := 0 })],
        m_devicesInfo :=
          [(qs "00:00:00:00:00:AA", ⟨qs "00:00:00:00:00:AA", qs "Watch", -1⟩)],
        m_hiddenDevices := ∅, m_starredDevices := ∅,
        m_focusedDevice := [] }
      rfl (qs "00:00:00:00:00:AA") _ rfl rfl).1⟩⟩

/-- C10, the claim as stated fails in the binary64 arithmetic of the program.
On the registry on which `onDeviceDiscovered` runs the layout for a first
device with the reading -1 (stored distance 1.9565e-18, the double
`5079364768425711 * 2^-111`, which `10.0 - dist` loses), whatever `<cmath>`
computes, the device is shown with the ratio exactly 1, not below 1; and with
`cos(0) = 1` its position has `x = 650`, not below 650, at the distance 250
from the centre. -/
theorem layout_reaches_rim_in_binary64 :
    (∀ cm : CMath ℚ, ∃ item : DeviceItem ℚ,
      QMap.value (updateProximityGraphRounded binary64 cm
        { m_deviceItems := [(qs "00:00:00:00:00:AA",
            { m_info := ⟨qs "00:00:00:00:00:AA", qs "Watch", -1⟩,
              m_distance := 5079364768425711 / 2 ^ 111, m_starred := false,
              visible := true, pos := (0, 0), zValue := 0 })],
          m_devicesInfo :=
            [(qs "00:00:00:00:00:AA", ⟨qs "00:00:00:00:00:AA", qs "Watch", -1⟩)],
          m_hiddenDevices := ∅, m_starredDevices := ∅,
          m_focusedDevice := [] }).m_deviceItems (qs "00:00:00:00:00:AA") = some item ∧
      item.visible = true ∧ item.zValue = 1 ∧ ¬ item.zValue < 1) ∧
    (∀ cm : CMath ℚ, cm.cos 0 = 1 → ∃ item : DeviceItem ℚ,
      QMap.value (updateProximityGraphRounded binary64 cm
        { m_deviceItems := [(qs "00:00:00:00:00:AA",
            { m_info := ⟨qs "00:00:00:00:00:AA", qs "Watch", -1⟩,
              m_distance := 5079364768425711 / 2 ^ 111, m_starred := false,
              visible := true, pos := (0, 0), zValue := 0 })],
          m_devicesInfo :=
            [(qs "00:00:00:00:00:AA", ⟨qs "00:00:00:00:00:AA", qs "Watch", -1⟩)],
          m_hiddenDevices := ∅, m_starredDevices := ∅,
          m_focusedDevice := [] }).m_deviceItems (qs "00:00:00:00:00:AA") = some item ∧
      item.visible = true ∧ item.pos.1 = 650 ∧ ¬ item.pos.1 < 650) := by
  have hz : binary64 (binary64 (10.0 - (if (5079364768425711 / 2 ^ 111 : ℚ) ≤ 0 ∨
      (5079364768425711 / 2 ^ 111 : ℚ) > 10.0 then 10.0
      else (5079364768425711 / 2 ^ 111 : ℚ))) / 10.0) = 1 := by decide!
  have h250 : binary64 250 = 250 := by decide!
  have h650 : binary64 650 = 650 := by decide!
  constructor
  · intro cm
    refine ⟨_, rfl, rfl, ?_, ?_⟩
    · exact hz
    · show ¬ binary64 (binary64 (10.0 - (if (5079364768425711 / 2 ^ 111 : ℚ) ≤ 0 ∨
        (5079364768425711 / 2 ^ 111 : ℚ) > 10.0 then 10.0
        else (5079364768425711 / 2 ^ 111 : ℚ))) / 10.0) < 1
      rw [hz]; exact lt_irrefl 1
  · intro cm hcos
    have hx : ∀ item0 : DeviceItem ℚ, item0.m_distance = 5079364768425711 / 2 ^ 111 →
        (placeItemRounded binary64 cm 0 1 item0).pos.1 = 650 := by
      intro item0 h0
      simp only [placeItemRounded, DeviceItem.setPos, DeviceItem.setZValue,
        DeviceItem.distance, h0]
      rw [hz]
      simp only [Nat.cast_zero, mul_zero, binary64_zero, Nat.cast_one, div_one, hcos,
        Int.cast_ofNat, mul_one, h250]
      norm_num
      exact h650
    refine ⟨_, rfl, rfl, hx _ rfl, ?_⟩
    show ¬ (placeItemRounded binary64 cm 0 1 _).pos.1 < 650
    rw [hx _ rfl]; exact lt_irrefl _

/-! ## Registries whose scene shows the overview layout -/

theorem visibleItems_update {R : Type} [LinearOrderedField R] (cm : CMath R)
    (s : MainWindow R) : visibleItems (updateProximityGraph cm s) = visibleItems s := by
  rw [visibleItems_eq_filter, visibleItems_eq_filter, keys_update, update_hidden]

/-- After a layout with no focus, the scene shows the overview layout. -/
theorem laidOut_update {R : Type} [LinearOrderedField R] (cm : CMath R)
    (s : MainWindow R) (ho : QMap.Ordered s.m_deviceItems) (hf : s.m_focusedDevice = []) :
    LaidOut cm (updateProximityGraph cm s) := by
  unfold LaidOut
  rw [visibleItems_update]
  intro i hi
  have hk : (visibleItems s)[i] ∈ QMap.keys s.m_deviceItems :=
    ((mem_visibleItems s _).1 (List.getElem_mem hi)).1
  obtain ⟨item0, h0⟩ := QMap.value_of_mem_keys _ _ hk
  refine ⟨placeItem cm i (visibleItems s).length (item0.setVisible true), ?_, rfl⟩
  rw [update_value_visible cm s ho hf i hi, h0]
  rfl

/-- The registry after discoveries only, on a registry with nothing hidden and
no focus: still nothing hidden and no focus, the scene shows the overview
layout, and every item has the distance `dist` if the old items had it and the
discovered devices get it. -/
theorem discoveries_laidOut {R : Type} [LinearOrderedField R] (cm : CMath R) (dist : R)
    (ds : List QBluetoothDeviceInfo)
    (hds : ∀ x ∈ ds, ((DeviceItem.new x : DeviceItem R).setDistanceFromRSSI cm x.rssi).distance
      = dist)
    (s : MainWindow R) (hwf : s.WellFormed) (hf : s.m_focusedDevice = [])
    (hh : s.m_hiddenDevices = ∅) (hl : LaidOut cm s)
    (hd : ∀ k item, QMap.value s.m_deviceItems k = some item → item.distance = dist) :
    (run cm s (ds.map Command.discovered)).m_focusedDevice = [] ∧
    (run cm s (ds.map Command.discovered)).m_hiddenDevices = ∅ ∧
    LaidOut cm (run cm s (ds.map Command.discovered)) ∧
    (∀ k item, QMap.value (run cm s (ds.map Command.discovered)).m_deviceItems k = some item →
      item.distance = dist) := by
  induction ds generalizing s with
  | nil => exact ⟨hf, hh, hl, hd⟩
  | cons d ds ih =>
    have hds2 : ∀ x ∈ ds,
        ((DeviceItem.new x : DeviceItem R).setDistanceFromRSSI cm x.rssi).distance = dist :=
      fun x hx => hds x (List.mem_cons_of_mem _ hx)
    simp only [List.map_cons, run, List.foldl_cons, handle]
    refine ih hds2 (onDeviceDiscovered cm s d) (wellFormed_discovered cm s d hwf)
      (by rw [discovered_focused]; exact hf) (by rw [discovered_hidden]; exact hh) ?_ ?_
    · rcases Bool.eq_false_or_eq_true (QMap.contains s.m_devicesInfo d.address) with hc | hc
      · rw [discovered_of_known cm s d hc]; exact hl
      · rw [discovered_of_new cm s d hc]
        exact laidOut_update cm _ (QMap.ordered_assign _ _ _ hwf.1) hf
    · intro k item hv
      rcases Bool.eq_false_or_eq_true (QMap.contains s.m_devicesInfo d.address) with hc | hc
      · rw [discovered_of_known cm s d hc] at hv; exact hd k item hv
      · rw [discovered_of_new cm s d hc] at hv
        have hcore := update_value_core cm
          { s with m_devicesInfo := s.m_devicesInfo.assign d.address d,
                   m_deviceItems := s.m_deviceItems.assign d.address
                     (((DeviceItem.new d).setDistanceFromRSSI cm d.rssi).setStarred
                       (decide (d.address ∈ s.m_starredDevices))) } k
        rw [hv] at hcore
        simp only [Option.map_some'] at hcore
        have hval : QMap.value (QMap.assign s.m_deviceItems d.address
            (((DeviceItem.new d).setDistanceFromRSSI cm d.rssi).setStarred
              (decide (d.address ∈ s.m_starredDevices)))) k =
            if k = d.address then some (((DeviceItem.new d).setDistanceFromRSSI cm d.rssi).setStarred
              (decide (d.address ∈ s.m_starredDevices)))
            else QMap.value s.m_deviceItems k := QMap.value_assign _ _ _ _
        rw [hval] at hcore
        by_cases hk : k = d.address
        · rw [if_pos hk] at hcore
          simp only [Option.map_some', Option.some.injEq, Prod.mk.injEq] at hcore
          have := hds d (List.mem_cons_self _ _)
          simp only [DeviceItem.distance] at this ⊢
          rw [hcore.2.1]
          exact this
        · rw [if_neg hk] at hcore
          cases h0 : QMap.value s.m_deviceItems k with
          | none => rw [h0] at hcore; simp at hcore
          | some item0 =>
            rw [h0] at hcore
            simp only [Option.map_some', Option.some.injEq, Prod.mk.injEq] at hcore
            have := hd k item0 h0
            simp only [DeviceItem.distance] at this ⊢
            rw [hcore.2.1]
            exact this

theorem laidOut_init {R : Type} [LinearOrderedField R] (cm : CMath R) :
    LaidOut cm (MainWindow.init : MainWindow R) := by
  intro i hi
  simp [visibleItems, MainWindow.init] at hi


theorem laidOut_at {R : Type} [LinearOrderedField R] (cm : CMath R) (s : MainWindow R)
    (hl : LaidOut cm s) (l : List QString) (hvl : visibleItems s = l) (i : Nat)
    (hi : i < l.length) :
    ∃ item, QMap.value s.m_deviceItems l[i] = some item ∧
      placeItem cm i l.length item = item := by
  subst hvl
  exact hl i hi

/-- Over the real numbers, the z-value and position of an item of distance 1
that sits where the layout loop puts index `i` of `n`. -/
theorem placed_at_distance_one (i n : Nat) (item : DeviceItem ℝ)
    (h : placeItem (CMath.mk Real.rpow Real.cos Real.sin Real.pi) i n item = item)
    (hd : item.distance = 1) :
    item.zValue = 0.9 ∧
    item.pos = (400 + 225 * Real.cos (2 * Real.pi * i / n),
                300 + 225 * Real.sin (2 * Real.pi * i / n)) := by
  have hz := congrArg DeviceItem.zValue h
  have hp := congrArg DeviceItem.pos h
  simp only [placeItem, DeviceItem.setZValue, DeviceItem.setPos, hd] at hz hp
  norm_num at hz hp
  refine ⟨by rw [← hz]; norm_num, ?_⟩
  rw [← hp]

theorem angle_zero (n : Nat) : 2 * Real.pi * ((0 : Nat) : ℝ) / (n : ℝ) = 0 := by
  simp

theorem angle_one_of_two : 2 * Real.pi * ((1 : Nat) : ℝ) / ((2 : Nat) : ℝ) = Real.pi := by
  push_cast; ring


/-! ## Four devices at distance 1 -/

theorem stored_distance_of_zero (x : QBluetoothDeviceInfo) (h : x.rssi = 0) :
    ((DeviceItem.new x : DeviceItem ℝ).setDistanceFromRSSI
      (CMath.mk Real.rpow Real.cos Real.sin Real.pi) x.rssi).distance = 1 := by
  rw [h]
  simp only [DeviceItem.setDistanceFromRSSI, DeviceItem.distance, distanceFromRSSI]
  norm_num

theorem update_value_rev {R : Type} [LinearOrderedField R] (cm : CMath R)
    (s : MainWindow R) (k : QString) (item2 : DeviceItem R)
    (h : QMap.value (updateProximityGraph cm s).m_deviceItems k = some item2) :
    ∃ item, QMap.value s.m_deviceItems k = some item ∧ item2.m_info = item.m_info ∧
      item2.m_distance = item.m_distance ∧ item2.m_starred = item.m_starred := by
  have hc := update_value_core cm s k
  rw [h] at hc
  cases hv : QMap.value s.m_deviceItems k with
  | none => rw [hv] at hc; simp at hc
  | some item =>
    rw [hv] at hc
    simp only [Option.map_some', Option.some.injEq, Prod.mk.injEq] at hc
    exact ⟨item, rfl, hc.1, hc.2.1, hc.2.2⟩

theorem hide_value {R : Type} (s : MainWindow R) (a k : QString) :
    QMap.value (onHideDevice s a).m_deviceItems k =
      if k = a then (QMap.value s.m_deviceItems k).map DeviceItem.hide
      else QMap.value s.m_deviceItems k := by
  unfold onHideDevice
  split_ifs with hc hk hk
  · subst hk
    exact (QMap.value_modify _ _ _ _).trans (if_pos rfl)
  · exact (QMap.value_modify _ _ _ _).trans (if_neg hk)
  · subst hk
    rw [Bool.not_eq_true, QMap.contains_eq_false_iff] at hc
    cases hv : QMap.value s.m_deviceItems k with
    | none => simp
    | some item => exact absurd (QMap.mem_keys_of_value _ _ _ hv) hc
  · rfl

/-- C9, the code at the failing input: "00:00:00:00:00:AA" and "00:00:00:00:00:BB"
are discovered, each with the reading 0 (stored distance 1.0), and
`onHideDevice("00:00:00:00:00:AA")` runs. "00:00:00:00:00:BB" is then the only
visible device, and it still sits at (400-225, 300), its place at index 1 of
2; the layout of the new visible set, which `updateProximityGraph` computes
when it is run on that registry, puts it at (400+225, 300), index 0 of 1. -/
theorem hide_leaves_layout_stale :
    visibleDevices (onHideDevice
      (run (CMath.mk Real.rpow Real.cos Real.sin Real.pi) MainWindow.init
        [.discovered ⟨qs "00:00:00:00:00:AA", qs "Watch", 0⟩, .discovered ⟨qs "00:00:00:00:00:BB", qs "Phone", 0⟩])
      (qs "00:00:00:00:00:AA")) = [qs "00:00:00:00:00:BB"] ∧
    (∃ item : DeviceItem ℝ, QMap.value (onHideDevice
      (run (CMath.mk Real.rpow Real.cos Real.sin Real.pi) MainWindow.init
        [.discovered ⟨qs "00:00:00:00:00:AA", qs "Watch", 0⟩, .discovered ⟨qs "00:00:00:00:00:BB", qs "Phone", 0⟩])
      (qs "00:00:00:00:00:AA")).m_deviceItems (qs "00:00:00:00:00:BB") = some item ∧
      item.pos = (400 - 225, 300)) ∧
    (∃ item : DeviceItem ℝ, QMap.value
      (updateProximityGraph (CMath.mk Real.rpow Real.cos Real.sin Real.pi) (onHideDevice
        (run (CMath.mk Real.rpow Real.cos Real.sin Real.pi) MainWindow.init
          [.discovered ⟨qs "00:00:00:00:00:AA", qs "Watch", 0⟩, .discovered ⟨qs "00:00:00:00:00:BB", qs "Phone", 0⟩])
        (qs "00:00:00:00:00:AA"))).m_deviceItems (qs "00:00:00:00:00:BB") = some item ∧
      item.pos = (400 + 225, 300)) := by
  have hds : ∀ x ∈ ([⟨qs "00:00:00:00:00:AA", qs "Watch", 0⟩, ⟨qs "00:00:00:00:00:BB", qs "Phone", 0⟩] :
      List QBluetoothDeviceInfo),
      ((DeviceItem.new x : DeviceItem ℝ).setDistanceFromRSSI
        (CMath.mk Real.rpow Real.cos Real.sin Real.pi) x.rssi).distance = 1 := by
    intro x hx
    simp only [List.mem_cons, List.mem_singleton, List.not_mem_nil, or_false] at hx
    rcases hx with rfl | rfl <;> exact stored_distance_of_zero _ rfl
  obtain ⟨hf, _, hl, hd⟩ := discoveries_laidOut
    (CMath.mk Real.rpow Real.cos Real.sin Real.pi) 1
    [⟨qs "00:00:00:00:00:AA", qs "Watch", 0⟩, ⟨qs "00:00:00:00:00:BB", qs "Phone", 0⟩] hds MainWindow.init
    wellFormed_init rfl rfl (laidOut_init _)
    (by intro k item hv; simp [MainWindow.init, QMap.value] at hv)
  have hwf := wellFormed_run (CMath.mk Real.rpow Real.cos Real.sin Real.pi)
    (MainWindow.init : MainWindow ℝ)
    [.discovered ⟨qs "00:00:00:00:00:AA", qs "Watch", 0⟩, .discovered ⟨qs "00:00:00:00:00:BB", qs "Phone", 0⟩]
    wellFormed_init
  refine ⟨by decide, ?_, ?_⟩
  · obtain ⟨item, hv, hp⟩ := laidOut_at _ _ hl [qs "00:00:00:00:00:AA", qs "00:00:00:00:00:BB"] (by decide) 1
      (by decide)
    obtain ⟨_, hpos⟩ := placed_at_distance_one _ _ item hp (hd _ _ hv)
    refine ⟨item, ?_, ?_⟩
    · rw [hide_value, if_neg (by decide)]
      exact hv
    · rw [hpos]
      have l2 : [qs "00:00:00:00:00:AA", qs "00:00:00:00:00:BB"].length = 2 := rfl
      rw [l2, angle_one_of_two]
      simp; norm_num
  · have hl2 := laidOut_update (CMath.mk Real.rpow Real.cos Real.sin Real.pi)
      (onHideDevice
        (run (CMath.mk Real.rpow Real.cos Real.sin Real.pi) MainWindow.init
          [.discovered ⟨qs "00:00:00:00:00:AA", qs "Watch", 0⟩, .discovered ⟨qs "00:00:00:00:00:BB", qs "Phone", 0⟩])
        (qs "00:00:00:00:00:AA"))
      (wellFormed_hide _ _ hwf).1 (by rw [hide_focused]; exact hf)
    obtain ⟨item, hv, hp⟩ := laidOut_at _ _ hl2 [qs "00:00:00:00:00:BB"]
      (by rw [visibleItems_update]; decide) 0 (by decide)
    obtain ⟨item1, hv1, _, hd1, _⟩ := update_value_rev _ _ _ _ hv
    have hv0 : QMap.value (run (CMath.mk Real.rpow Real.cos Real.sin Real.pi) MainWindow.init
        [.discovered ⟨qs "00:00:00:00:00:AA", qs "Watch", 0⟩,
         .discovered ⟨qs "00:00:00:00:00:BB", qs "Phone", 0⟩]).m_deviceItems (qs "00:00:00:00:00:BB") = some item1 := by
      rw [hide_value, if_neg (by decide)] at hv1
      exact hv1
    have hdist : item.distance = 1 := by
      have := hd _ _ hv0
      simp only [DeviceItem.distance] at this ⊢
      rw [hd1]; exact this
    obtain ⟨_, hpos⟩ := placed_at_distance_one _ _ item hp hdist
    refine ⟨item, hv, ?_⟩
    rw [hpos, angle_zero]
    simp

end Juba
